import Mathlib

/-!
A shallow embedding of the plan reconciliation and recovery subsystem:
the task extractor and plan reconciler (`plan-reconcile.ts`), the
dependency restorer (`dependency-restore.ts`), the restore-dependencies
and recovery-center handlers, the event history store and its atomic
index writes (`event-history` service), and the event fan-out
(`events.ts`).  JavaScript strings become `String`, optional fields
become `Option`, JS truthiness of optional strings is modelled
explicitly, and the filesystem becomes an explicit map from paths to
file metadata/contents.
-/

/-- Task status enum of `ParsedTask.status`. -/
inductive TaskStatus where
  | pending
  | in_progress
  | completed
  | failed
  deriving DecidableEq, Repr

/-- `ParsedTask` of `plan-reconcile.ts`.  `status` is optional here because the
stored JSON may lack it; the code defends with `task.status || 'pending'`. -/
structure ParsedTask where
  id : String
  description : String
  filePath : Option String := none
  phase : Option String := none
  status : Option TaskStatus := none
  startedAt : Option String := none
  completedAt : Option String := none
  deriving DecidableEq, Repr

/-- `PlanReconcileResult` of `plan-reconcile.ts`. -/
structure PlanReconcileResult where
  tasks : List ParsedTask
  tasksCompleted : Nat
  tasksTotal : Nat
  currentTaskId : Option String := none
  missingFiles : List String
  deriving DecidableEq, Repr

/-- The `planSpec` object carried by a feature record. -/
structure PlanSpec where
  content : Option String := none
  tasks : Option (List ParsedTask) := none
  tasksCompleted : Option Nat := none
  tasksTotal : Option Nat := none
  currentTaskId : Option String := none
  status : Option String := none
  deriving DecidableEq, Repr

/-- The `Feature` record, restricted to the fields the reconciliation and
recovery code reads or writes. -/
structure Feature where
  id : String
  title : Option String := none
  status : Option String := none
  dependencies : Option (List String) := none
  planSpec : Option PlanSpec := none
  startedAt : Option String := none
  updatedAt : Option String := none
  error : Option String := none
  branchName : Option String := none
  providerId : Option String := none
  model : Option String := none
  planningMode : Option String := none
  deriving DecidableEq, Repr

/-- The observable filesystem: `stat` returns the mtime (already rendered as an
ISO string) of an existing file, `read` the contents of a readable file. -/
structure FSState where
  stat : String → Option String
  read : String → Option String

/-- JS truthiness of an optional string: `undefined` and `""` are falsy. -/
def strTruthy : Option String → Bool
  | none => false
  | some s => decide (s ≠ "")

/-- The `\s` character class (whitespace), as used by the line scanners. -/
def jsIsSpace (c : Char) : Bool := c.isWhitespace

/-- Characters of a string with leading and trailing whitespace removed
(JS `String.prototype.trim`, implemented over the character list so that it
evaluates by kernel reduction). -/
def trimChars (cs : List Char) : List Char :=
  ((cs.dropWhile jsIsSpace).reverse.dropWhile jsIsSpace).reverse

/-- JS `String.prototype.trim`. -/
def jsTrim (s : String) : String := String.mk (trimChars s.data)

/-- Split a character list at every character satisfying `p`, keeping empty
segments (JS `split` semantics). -/
def splitCharsOn (p : Char → Bool) : List Char → List (List Char)
  | [] => [[]]
  | c :: rest =>
    let r := splitCharsOn p rest
    if p c then [] :: r
    else
      match r with
      | g :: gs => (c :: g) :: gs
      | [] => [[c]]

/-- JS `split` on a single separator character. -/
def splitString (sep : Char) (s : String) : List String :=
  (splitCharsOn (fun c => decide (c = sep)) s.data).map String.mk

/-- `normalizeTaskId`: keep the digits of the raw id, zero-pad to width 3 and
prefix `T`; `null` when the raw id holds no digit. -/
def normalizeTaskId (rawId : String) : Option String :=
  let digits := rawId.data.filter Char.isDigit
  if digits.isEmpty then none
  else some (String.mk ('T' :: (List.replicate (3 - digits.length) '0' ++ digits)))

/-- Case-insensitive character equality (the `/i` regex flag). -/
def charEqCI (a b : Char) : Bool := decide (a.toLower = b.toLower)

/-- Case-insensitive prefix test over character lists. -/
def startsWithCI : List Char → List Char → Bool
  | _, [] => true
  | [], _ :: _ => false
  | c :: cs, p :: ps => charEqCI c p && startsWithCI cs ps

/-- Exact prefix test over character lists. -/
def listStartsWith : List Char → List Char → Bool
  | _, [] => true
  | [], _ :: _ => false
  | c :: cs, p :: ps => decide (c = p) && listStartsWith cs ps

/-- Index of the first occurrence of `pat` in `cs`, `none` when absent. -/
def firstIndexOf : List Char → List Char → Option Nat
  | [], pat => if listStartsWith [] pat then some 0 else none
  | c :: rest, pat =>
    if listStartsWith (c :: rest) pat then some 0
    else (firstIndexOf rest pat).map (· + 1)

/-- The replace of `^-\s*\[\s*\]\s*` (leading checkbox marker): strips the
marker when it matches, returns the input unchanged otherwise. -/
def stripCheckbox (cs : List Char) : List Char :=
  match cs with
  | '-' :: rest =>
    match rest.dropWhile jsIsSpace with
    | '[' :: r2 =>
      match r2.dropWhile jsIsSpace with
      | ']' :: r4 => r4.dropWhile jsIsSpace
      | _ => cs
    | _ => cs
  | _ => cs

/-- The replace of `^\d+\.\s*` (leading list numbering). -/
def stripNumbering (cs : List Char) : List Char :=
  let digits := cs.takeWhile Char.isDigit
  if digits.isEmpty then cs
  else
    match cs.drop digits.length with
    | '.' :: rest => rest.dropWhile jsIsSpace
    | _ => cs

/-- The replace of `^-\s*` (leading bullet). -/
def stripDash (cs : List Char) : List Char :=
  match cs with
  | '-' :: rest => rest.dropWhile jsIsSpace
  | _ => cs

/-- The tail of the task-line patterns, `([^|]+)(?:\|\s*File:\s*(.+))?$`:
a non-empty description that cannot cross a pipe, then an optional
`| File: <path>` clause that must reach the end of the line. -/
def matchDescFile (cs : List Char) : Option (String × Option String) :=
  let desc := cs.takeWhile (fun c => !decide (c = '|'))
  if desc.isEmpty then none
  else
    match cs.drop desc.length with
    | [] => some (jsTrim (String.mk desc), none)
    | '|' :: tail =>
      let t1 := tail.dropWhile jsIsSpace
      if startsWithCI t1 "file:".data then
        let t2 := (t1.drop 5).dropWhile jsIsSpace
        if t2.isEmpty then none
        else some (jsTrim (String.mk desc), some (jsTrim (String.mk t2)))
      else none
    | _ => none

/-- The pattern `^(T\d+)\s*[:\-]\s*([^|]+)(?:\|\s*File:\s*(.+))?$` (with `/i`). -/
def matchTaskPattern1 (cs : List Char) (currentPhase : Option String) : Option ParsedTask :=
  match cs with
  | [] => none
  | c :: rest =>
    if charEqCI c 'T' then
      let digits := rest.takeWhile Char.isDigit
      if digits.isEmpty then none
      else
        match (rest.drop digits.length).dropWhile jsIsSpace with
        | [] => none
        | sep :: body =>
          if decide (sep = ':') || decide (sep = '-') then
            match matchDescFile (body.dropWhile jsIsSpace) with
            | none => none
            | some (desc, fp) =>
              match normalizeTaskId (String.mk (c :: digits)) with
              | none => none
              | some nid =>
                some { id := nid, description := desc, filePath := fp,
                       phase := currentPhase, status := some TaskStatus.pending }
          else none
    else none

/-- The pattern `^(?:Task)\s*(\d+)\s*[:\-]\s*([^|]+)(?:\|\s*File:\s*(.+))?$`
(with `/i`). -/
def matchTaskPattern2 (cs : List Char) (currentPhase : Option String) : Option ParsedTask :=
  if startsWithCI cs "task".data then
    let r1 := (cs.drop 4).dropWhile jsIsSpace
    let digits := r1.takeWhile Char.isDigit
    if digits.isEmpty then none
    else
      match (r1.drop digits.length).dropWhile jsIsSpace with
      | [] => none
      | sep :: body =>
        if decide (sep = ':') || decide (sep = '-') then
          match matchDescFile (body.dropWhile jsIsSpace) with
          | none => none
          | some (desc, fp) =>
            match normalizeTaskId (String.mk digits) with
            | none => none
            | some nid =>
              some { id := nid, description := desc, filePath := fp,
                     phase := currentPhase, status := some TaskStatus.pending }
        else none
  else none

/-- `parseTaskLineFlexible`: trim, strip checkbox/numbering/bullet markers,
then try the two task-line patterns in order. -/
def parseTaskLineFlexible (line : String) (currentPhase : Option String) : Option ParsedTask :=
  let trimmed := jsTrim line
  if trimmed = "" then none
  else
    let normalized := jsTrim (String.mk (stripDash (stripNumbering (stripCheckbox trimmed.data))))
    match matchTaskPattern1 normalized.data currentPhase with
    | some t => some t
    | none => matchTaskPattern2 normalized.data currentPhase

/-- Whether the quick filter `/T\d+|Task\s*\d+/i` matches at this position. -/
def taskRefHere (cs : List Char) : Bool :=
  (match cs with
   | c :: d :: _ => charEqCI c 'T' && d.isDigit
   | _ => false) ||
  (startsWithCI cs "task".data &&
   (match (cs.drop 4).dropWhile jsIsSpace with
    | d :: _ => d.isDigit
    | [] => false))

/-- The quick filter `/T\d+|Task\s*\d+/i` as a containment scan. -/
def containsTaskRef : List Char → Bool
  | [] => false
  | c :: rest => taskRefHere (c :: rest) || containsTaskRef rest

/-- The phase heading match `^##\s*(.+)$` on an already-trimmed line. -/
def phaseOf (trimmed : String) : Option String :=
  match trimmed.data with
  | '#' :: '#' :: rest =>
    if rest.isEmpty then none
    else some (jsTrim (String.mk (rest.dropWhile jsIsSpace)))
  | _ => none

/-- The region `parseTasksFromContent` scans: the inside of the first fenced
`tasks` block when one opens and closes, otherwise the whole content. -/
def taskScanSource (content : String) : String :=
  match firstIndexOf content.data "```tasks".data with
  | some i =>
    let rest := (content.data.drop (i + 8)).dropWhile jsIsSpace
    match firstIndexOf rest "```".data with
    | some j => String.mk (rest.take j)
    | none => content
  | none => content

/-- The line loop of `parseTasksFromContent`, threading the current phase. -/
def parseTaskLines : List String → Option String → List ParsedTask
  | [], _ => []
  | line :: rest, currentPhase =>
    let trimmed := jsTrim line
    if trimmed = "" then parseTaskLines rest currentPhase
    else
      match phaseOf trimmed with
      | some ph => parseTaskLines rest (some ph)
      | none =>
        if containsTaskRef trimmed.data then
          match parseTaskLineFlexible trimmed currentPhase with
          | some t => t :: parseTaskLines rest currentPhase
          | none => parseTaskLines rest currentPhase
        else parseTaskLines rest currentPhase

/-- `parseTasksFromContent` of `plan-reconcile.ts`. -/
def parseTasksFromContent (content : String) : List ParsedTask :=
  if content = "" then []
  else parseTaskLines (splitString (Char.ofNat 10) (taskScanSource content)) none

/-- `path.join` modelled as separator concatenation (the joined segments of
this codebase never navigate with dots). -/
def pathJoin (a b : String) : String := a ++ "/" ++ b

/-- POSIX `path.isAbsolute`. -/
def isAbsolutePath (p : String) : Bool := listStartsWith p.data ['/']

/-- `sanitizeWorktreeName`: replace every character outside `[a-zA-Z0-9_-]`
with a dash. -/
def sanitizeWorktreeName (name : String) : String :=
  String.mk (name.data.map (fun c =>
    if c.isAlphanum || decide (c = '_') || decide (c = '-') then c else '-'))

/-- `getWorktreeRoots`: the sanitized worktree copies derived from the branch
name and the feature id. -/
def getWorktreeRoots (projectPath : String) (feature : Feature) : List String :=
  let worktreesDir := pathJoin projectPath ".worktrees"
  (if strTruthy feature.branchName then
     [pathJoin worktreesDir (sanitizeWorktreeName (feature.branchName.getD ""))]
   else []) ++
  (if feature.id = "" then [] else [pathJoin worktreesDir (sanitizeWorktreeName feature.id)])

/-- The candidate absolute paths probed for a task file, in probe order. -/
def candidatePaths (projectPath : String) (feature : Feature) (filePath : String) : List String :=
  if isAbsolutePath filePath then [filePath]
  else
    pathJoin projectPath filePath ::
      (getWorktreeRoots projectPath feature).map (fun root => pathJoin root filePath)

/-- Probe the candidates in order; the first that stats wins, yielding its
mtime. -/
def firstHit (fs : FSState) : List String → Option String
  | [] => none
  | c :: rest =>
    match fs.stat c with
    | some mtime => some mtime
    | none => firstHit fs rest

/-- The first mutation of the loop body: a task in progress without a
`startedAt` inherits the record's own `startedAt` (when truthy). -/
def adjustStartedAt (feature : Feature) (task : ParsedTask) : ParsedTask :=
  if task.status = some TaskStatus.in_progress ∧ strTruthy task.startedAt = false ∧
      strTruthy feature.startedAt = true
  then { task with startedAt := feature.startedAt } else task

/-- The probe of the loop body: skip tasks without a truthy file path, then
try the candidate paths in order; a hit completes the task (backfilling
`completedAt` from the mtime when unset), a miss records the missing path and
forces a non-failed status back to pending. -/
def probeTask (fs : FSState) (projectPath : String) (feature : Feature)
    (task : ParsedTask) : ParsedTask × Option String :=
  match task.filePath with
  | none => (task, none)
  | some fp =>
    if fp = "" then (task, none)
    else
      match firstHit fs (candidatePaths projectPath feature fp) with
      | some mtime =>
        ({ task with
            status := some TaskStatus.completed,
            completedAt := if strTruthy task.completedAt then task.completedAt else some mtime },
         none)
      | none =>
        ({ task with
            status := if task.status = some TaskStatus.failed then task.status
                      else some TaskStatus.pending },
         some fp)

/-- One iteration of the per-task reconciliation loop. The second component is
the entry appended to `missingFiles`, when any. -/
def reconcileOneTask (fs : FSState) (projectPath : String) (feature : Feature)
    (task : ParsedTask) : ParsedTask × Option String :=
  probeTask fs projectPath feature (adjustStartedAt feature task)

/-- Whether the probe loop finds filesystem evidence for a task: it has a
truthy file path and some candidate path exists. -/
def taskEvidenceFound (fs : FSState) (projectPath : String) (feature : Feature)
    (t : ParsedTask) : Bool :=
  match t.filePath with
  | some fp =>
    decide (fp ≠ "") && (candidatePaths projectPath feature fp).any (fun c => (fs.stat c).isSome)
  | none => false

/-- The saved execution artifact of a feature,
`{projectPath}/.automaker/features/{id}/agent-output.md`. -/
def agentOutputPath (projectPath featureId : String) : String :=
  pathJoin (pathJoin (pathJoin (pathJoin projectPath ".automaker") "features") featureId)
    "agent-output.md"

/-- Strip of the trailing generated-marker: text before `[SPEC_GENERATED]`
when the marker occurs at a positive index, the whole output otherwise,
trimmed either way. -/
def stripSpecMarker (output : String) : String :=
  match firstIndexOf output.data "[SPEC_GENERATED]".data with
  | some i => if 0 < i then jsTrim (String.mk (output.data.take i)) else jsTrim output
  | none => jsTrim output

/-- Whether a plan spec has no task list (`!tasks || tasks.length === 0`). -/
def tasksEmpty (ps : PlanSpec) : Bool :=
  match ps.tasks with
  | none => true
  | some l => l.isEmpty

/-- JS truthiness of the attached plan content. -/
def contentTruthy (ps : PlanSpec) : Bool := strTruthy ps.content

/-- First resolution step of `reconcileFeaturePlanSpec`: when no task list is
attached but plan content is, extract tasks from the content and assign them
in place. -/
def resolveStep1 (ps0 : PlanSpec) : PlanSpec :=
  if tasksEmpty ps0 && contentTruthy ps0 then
    let parsed := parseTasksFromContent (ps0.content.getD "")
    if parsed.isEmpty then ps0 else { ps0 with tasks := some parsed }
  else ps0

/-- Second resolution step: when there is still no task list and no content,
fall back to the captured execution artifact, assigning both the extracted
tasks and the stripped content in place. -/
def resolveStep2 (fs : FSState) (projectPath featureId : String) (ps1 : PlanSpec) : PlanSpec :=
  if tasksEmpty ps1 && !contentTruthy ps1 then
    match fs.read (agentOutputPath projectPath featureId) with
    | some output =>
      let planContent := stripSpecMarker output
      let parsed := parseTasksFromContent planContent
      if parsed.isEmpty then ps1
      else { ps1 with tasks := some parsed, content := some planContent }
    | none => ps1
  else ps1

/-- The task-list resolution phase of `reconcileFeaturePlanSpec`. The returned
plan spec is the one the mutated record ends up holding. -/
def resolveSteps (fs : FSState) (projectPath featureId : String) (ps0 : PlanSpec) : PlanSpec :=
  resolveStep2 fs projectPath featureId (resolveStep1 ps0)

/-- The plan spec resolved for a feature (an absent `planSpec` is first
replaced by an empty object, in place). -/
def resolvePlanSpec (fs : FSState) (projectPath : String) (feature : Feature) : PlanSpec :=
  resolveSteps fs projectPath feature.id (feature.planSpec.getD {})

/-- The copy of `task.status || 'pending'` applied to every task before the
probe loop. -/
def normalizeTaskStatus (t : ParsedTask) : ParsedTask :=
  { t with status := some (t.status.getD TaskStatus.pending) }

/-- The reconciliation computation over the resolved task list: copy the tasks
with a defaulted status, probe each file, and aggregate. -/
def reconcileTasksPhase (fs : FSState) (projectPath : String) (feature : Feature)
    (ts : List ParsedTask) : PlanReconcileResult :=
  let tasksN := ts.map normalizeTaskStatus
  let processed := tasksN.map (reconcileOneTask fs projectPath feature)
  let tasks := processed.map Prod.fst
  { tasks := tasks
    tasksCompleted := tasks.countP (fun t => decide (t.status = some TaskStatus.completed))
    tasksTotal := tasks.length
    currentTaskId :=
      (tasks.find? (fun t => decide (t.status ≠ some TaskStatus.completed))).map ParsedTask.id
    missingFiles := processed.filterMap Prod.snd }

/-- `reconcileFeaturePlanSpec`. The first component is the input record after
the in-place mutations (planSpec creation and task extraction); the second is
the returned reconciliation result. -/
def reconcileFeaturePlanSpec (fs : FSState) (projectPath : String) (feature : Feature) :
    Feature × Option PlanReconcileResult :=
  let ps := resolvePlanSpec fs projectPath feature
  ({ feature with planSpec := some ps },
   match ps.tasks with
   | none => none
   | some ts =>
     if ts.isEmpty then none else some (reconcileTasksPhase fs projectPath feature ts))

/-- `hasPlanSpecChanges`: value comparison of the task list and the three
aggregate fields. -/
def hasPlanSpecChanges (currentPlanSpec : Option PlanSpec) (reconciled : PlanReconcileResult) :
    Bool :=
  let current := currentPlanSpec.getD {}
  if current.tasks.getD [] ≠ reconciled.tasks then true
  else if current.tasksCompleted.getD 0 ≠ reconciled.tasksCompleted then true
  else if current.tasksTotal.getD 0 ≠ reconciled.tasksTotal then true
  else if current.currentTaskId ≠ reconciled.currentTaskId then true
  else false

/-- The resolved task list `reconcileFeaturePlanSpec` reconciles (empty when it
returns null). -/
def inputTasks (fs : FSState) (projectPath : String) (feature : Feature) : List ParsedTask :=
  (resolvePlanSpec fs projectPath feature).tasks.getD []

/-- Drop one trailing carriage return. -/
def stripTrailingCR (cs : List Char) : List Char :=
  match cs.reverse with
  | c :: rest => if c = Char.ofNat 13 then rest.reverse else cs
  | [] => cs

/-- Lines split on `/\r?\n/`: split on newline and drop one trailing carriage
return from each piece. -/
def splitLinesCRLF (content : String) : List String :=
  (splitCharsOn (fun c => decide (c = Char.ofNat 10)) content.data).map
    (fun l => String.mk (stripTrailingCR l))

/-- Case-insensitive containment scan over character lists. -/
def containsCI : List Char → List Char → Bool
  | [], pat => startsWithCI [] pat
  | c :: rest, pat => startsWithCI (c :: rest) pat || containsCI rest pat

/-- Backtracking of the optional `s` in `dependencies?`: try consuming an `s`
first, then without. -/
def matchOptS {α : Type} (f : List Char → Option α) (cs : List Char) : Option α :=
  match cs with
  | c :: rest => if charEqCI c 's' then (f rest).orElse (fun _ => f cs) else f cs
  | [] => f cs

/-- The continuation `\s*:\s*\[([^\]]+)\]` of the bracketed dependency list. -/
def bracketAfterColon (cs : List Char) : Option (List Char) :=
  match cs.dropWhile jsIsSpace with
  | ':' :: r1 =>
    match r1.dropWhile jsIsSpace with
    | '[' :: r2 =>
      let inside := r2.takeWhile (fun c => !decide (c = ']'))
      if inside.isEmpty then none
      else
        match r2.drop inside.length with
        | ']' :: _ => some inside
        | _ => none
    | _ => none
  | _ => none

/-- The continuation `\s*:\s*(.+)$` of the inline dependency list (the scanned
lines are trimmed, so a whitespace-only tail cannot occur). -/
def inlineAfterColon (cs : List Char) : Option (List Char) :=
  match cs.dropWhile jsIsSpace with
  | ':' :: r1 =>
    let r2 := r1.dropWhile jsIsSpace
    if r2.isEmpty then none else some r2
  | _ => none

/-- Leftmost scan for `dependencies?` followed by the given continuation. -/
def findDepMatch {α : Type} (f : List Char → Option α) : List Char → Option α
  | [] => none
  | c :: rest =>
    (if startsWithCI (c :: rest) "dependencie".data then matchOptS f ((c :: rest).drop 11)
     else none).orElse (fun _ => findDepMatch f rest)

/-- The whole-line header match `^dependencies?\s*:?$`. -/
def isDepHeader (cs : List Char) : Bool :=
  if startsWithCI cs "dependencie".data then
    match matchOptS (fun r =>
        match r.dropWhile jsIsSpace with
        | [] => some ()
        | ':' :: r2 => if r2.isEmpty then some () else none
        | _ => none) (cs.drop 11) with
    | some _ => true
    | none => false
  else false

/-- The character class `[A-Za-z0-9:_-]` of bulleted dependency entries. -/
def depIdChar (c : Char) : Bool :=
  c.isAlphanum || decide (c = ':') || decide (c = '_') || decide (c = '-')

/-- The bullet match `^[-*+]\s*([A-Za-z0-9:_-]+)` on a trimmed line. -/
def bulletDep (cs : List Char) : Option String :=
  match cs with
  | [] => none
  | b :: rest =>
    if decide (b = '-') || decide (b = '*') || decide (b = '+') then
      let cap := (rest.dropWhile jsIsSpace).takeWhile depIdChar
      if cap.isEmpty then none else some (String.mk cap)
    else none

/-- `addCandidates`: split on commas, trim, keep the non-empty pieces. -/
def splitCommaCandidates (value : String) : List String :=
  ((splitString (Char.ofNat 44) value).map jsTrim).filter (fun s => decide (s ≠ ""))

/-- The inner loop collecting a bulleted dependency list until a blank line, a
comment line or a non-bullet line. -/
def collectBullets : List String → List String
  | [] => []
  | l :: ls =>
    let t := jsTrim l
    if t = "" then []
    else if listStartsWith t.data [Char.ofNat 35] then []
    else
      match bulletDep t.data with
      | some cap => cap :: collectBullets ls
      | none => []

/-- The line loop of `extractDependenciesFromPlan`, yielding the raw entries in
collection order. -/
def extractDepsLoop : List String → List String
  | [] => []
  | line :: rest =>
    let t := jsTrim line
    if containsCI t.data "dependencie".data then
      match findDepMatch bracketAfterColon t.data with
      | some inside => splitCommaCandidates (String.mk inside) ++ extractDepsLoop rest
      | none =>
        match findDepMatch inlineAfterColon t.data with
        | some cap => splitCommaCandidates (String.mk cap) ++ extractDepsLoop rest
        | none =>
          if isDepHeader t.data then collectBullets rest ++ extractDepsLoop rest
          else extractDepsLoop rest
    else extractDepsLoop rest

/-- First-occurrence de-duplication: the order a JS `Set` accumulates and
`Array.from` reads back. -/
def dedupAux : List String → List String → List String
  | _, [] => []
  | seen, x :: xs => if x ∈ seen then dedupAux seen xs else x :: dedupAux (x :: seen) xs

/-- First-occurrence de-duplication of a list. -/
def dedupFirst (l : List String) : List String := dedupAux [] l

/-- `extractDependenciesFromPlan` of `dependency-restore.ts`. -/
def extractDependenciesFromPlan (content : Option String) : List String :=
  match content with
  | none => []
  | some c => if c = "" then [] else dedupFirst (extractDepsLoop (splitLinesCRLF c))

/-- `normalizeDependencies`: trim each entry, drop the empties, de-duplicate
keeping first occurrences. -/
def normalizeDependencies (deps : List String) : List String :=
  dedupFirst ((deps.map jsTrim).filter (fun s => decide (s ≠ "")))

/-- `readBackupDependencies`: union the `dependencies` arrays parsed out of the
numbered backups `*.bak1..bakN`; a missing or corrupt backup contributes
nothing. `readFeatureFile` is the oracle composing `secureFs.readFile` with
`JSON.parse` of the record schema. -/
def readBackupDependencies (readFeatureFile : String → Option Feature)
    (featureJsonPath : String) (maxBackups : Nat := 3) : List String :=
  dedupFirst (((List.range maxBackups).map (fun i =>
    match readFeatureFile (featureJsonPath ++ ".bak" ++ toString (i + 1)) with
    | some f => f.dependencies.getD []
    | none => [])).flatten)

/-- Argument record of `getDependencyRestoreCandidates`. -/
structure DependencyRestoreArgs where
  feature : Feature
  allFeatureIds : List String
  backupDependencies : List String
  planDependencies : List String

/-- Result of `getDependencyRestoreCandidates`. -/
structure DependencyRestoreResult where
  candidates : List String
  missing : List String
  deriving DecidableEq, Repr

/-- `getDependencyRestoreCandidates` of `dependency-restore.ts`. -/
def getDependencyRestoreCandidates (args : DependencyRestoreArgs) : DependencyRestoreResult :=
  let currentDeps := (args.feature.dependencies.getD []).filter (fun s => decide (s ≠ ""))
  let candidates :=
    (normalizeDependencies (args.backupDependencies ++ args.planDependencies)).filter
      (fun dep => decide (dep ≠ args.feature.id))
  let missing := candidates.filter
    (fun dep => !decide (dep ∈ currentDeps) && decide (dep ∈ args.allFeatureIds))
  { candidates := candidates, missing := missing }

/-- Modelled from the spec: `FeatureLoader.update` (the loader is not under
src/) merges the given fields into the persisted record and returns the
updated record; an `undefined` dependencies value clears the field. -/
def applyDependenciesUpdate (f : Feature) (dependencies : Option (List String))
    (now : String) : Feature :=
  { f with dependencies := dependencies, updatedAt := some now }

/-- The per-record body of the restore-dependencies handler: compute the
candidates, and in live mode with a non-empty `missing` merge it into the
persisted dependency set, clearing the field when the merge is empty. -/
def restoreDependenciesApply (now : String) (dryRun : Bool)
    (allFeatureIds backupDeps planDeps : List String) (f : Feature) :
    Feature × DependencyRestoreResult :=
  let r := getDependencyRestoreCandidates
    { feature := f, allFeatureIds := allFeatureIds,
      backupDependencies := backupDeps, planDependencies := planDeps }
  if !dryRun && !r.missing.isEmpty then
    let nextDependencies := dedupFirst (f.dependencies.getD [] ++ r.missing)
    (applyDependenciesUpdate f
      (if 0 < nextDependencies.length then some nextDependencies else none) now, r)
  else (f, r)

/-- Modelled from the spec: `FeatureLoader.getFeatureJsonPath` (not under
src/) — the record file inside the record's own directory. -/
def featureJsonPath (projectPath featureId : String) : String :=
  projectPath ++ "/.automaker/features/" ++ featureId ++ "/feature.json"

/-- The `plan` projection of a recovery item. -/
structure RecoveryItemPlan where
  tasksCompleted : Nat
  tasksTotal : Nat
  currentTaskId : Option String := none
  status : Option String := none
  deriving DecidableEq, Repr

/-- `RecoveryItem` of `recovery-center.ts`. -/
structure RecoveryItem where
  featureId : String
  title : Option String := none
  status : Option String := none
  updatedAt : Option String := none
  providerId : Option String := none
  model : Option String := none
  planningMode : Option String := none
  error : Option String := none
  plan : Option RecoveryItemPlan := none
  missingFiles : List String := []
  dependencyRestoreCount : Nat := 0
  dependencyRestoreCandidates : List String := []
  hasAgentOutput : Bool := true
  issues : List String := []
  canResume : Bool := false
  canRebuild : Bool := false
  deriving DecidableEq, Repr

/-- The summary block of the recovery-center response. -/
structure RecoverySummary where
  total : Nat
  totalItems : Nat
  incompletePlans : Nat
  missingFiles : Nat
  missingOutputs : Nat
  missingDependencies : Nat
  deriving DecidableEq, Repr

/-- The record statuses eligible for the approved-but-incomplete downgrade. -/
def recoveryStatusEligible (status : Option String) : Bool :=
  decide (status = some "waiting_approval") || decide (status = some "verified") ||
    decide (status = some "completed")

/-- Modelled from the spec: the `FeatureLoader.update` call of the recovery
center — merge the updated plan spec (and the downgraded status when
signalled) into the record. -/
def applyRecoveryUpdate (f : Feature) (ps : PlanSpec) (downgrade : Bool) (now : String) :
    Feature :=
  { f with planSpec := some ps,
           status := if downgrade then some "backlog" else f.status,
           updatedAt := some now }

/-- The per-record body of the recovery-center loop: reconcile, persist when
changed or downgraded, then classify issues and action eligibility. -/
def processRecoveryFeature (fs : FSState) (readFeatureFile : String → Option Feature)
    (now projectPath : String) (allFeatureIds : List String) (feature : Feature) :
    RecoveryItem :=
  let rec1 := reconcileFeaturePlanSpec fs projectPath feature
  let f1 := rec1.1
  let updatedFeature :=
    match rec1.2 with
    | none => f1
    | some reconciled =>
      let currentPlanSpec := f1.planSpec.getD {}
      let needsUpdate := hasPlanSpecChanges f1.planSpec reconciled
      let shouldDowngradeStatus :=
        decide (currentPlanSpec.status = some "approved") &&
          decide (reconciled.tasksCompleted < reconciled.tasksTotal) &&
          recoveryStatusEligible f1.status
      if needsUpdate || shouldDowngradeStatus then
        applyRecoveryUpdate f1
          { currentPlanSpec with
              tasks := some reconciled.tasks,
              tasksCompleted := some reconciled.tasksCompleted,
              tasksTotal := some reconciled.tasksTotal,
              currentTaskId := reconciled.currentTaskId }
          shouldDowngradeStatus now
      else f1
  let planSpec := updatedFeature.planSpec
  let tasksTotal :=
    ((planSpec.bind PlanSpec.tasksTotal).orElse
      (fun _ => rec1.2.map PlanReconcileResult.tasksTotal)).getD 0
  let tasksCompleted :=
    ((planSpec.bind PlanSpec.tasksCompleted).orElse
      (fun _ => rec1.2.map PlanReconcileResult.tasksCompleted)).getD 0
  let missingFiles := (rec1.2.map PlanReconcileResult.missingFiles).getD []
  let hasPlan := decide (0 < tasksTotal)
  let incompletePlan := hasPlan && decide (tasksCompleted < tasksTotal)
  let hasAgentOutput := (fs.stat (agentOutputPath projectPath feature.id)).isSome
  let hasError :=
    match updatedFeature.error with
    | some e => decide (jsTrim e ≠ "")
    | none => false
  let hasFailedStatus :=
    decide (updatedFeature.status = some "failed") || decide (updatedFeature.status = some "error")
  let issues0 := if hasError || hasFailedStatus then ["Execution error"] else []
  let issues1 := issues0 ++ (if incompletePlan then ["Plan incomplete"] else [])
  let issues2 := issues1 ++ (if decide (0 < missingFiles.length) then ["Missing expected files"] else [])
  let issues3 := issues2 ++ (if !hasAgentOutput then ["Agent output missing"] else [])
  let backupDependencies :=
    readBackupDependencies readFeatureFile (featureJsonPath projectPath feature.id) 3
  let planDependencies := extractDependenciesFromPlan (updatedFeature.planSpec.bind PlanSpec.content)
  let dependencyRestore := getDependencyRestoreCandidates
    { feature := updatedFeature, allFeatureIds := allFeatureIds,
      backupDependencies := backupDependencies, planDependencies := planDependencies }
  let dependencyRestoreCount := dependencyRestore.missing.length
  let issues4 := issues3 ++ (if decide (0 < dependencyRestoreCount) then ["Missing dependencies"] else [])
  let statusMismatch :=
    decide ((planSpec.bind PlanSpec.status) = some "approved") && incompletePlan &&
      recoveryStatusEligible updatedFeature.status
  let issues5 := issues4 ++ (if statusMismatch then ["Status out of sync with plan"] else [])
  { featureId := updatedFeature.id, title := updatedFeature.title,
    status := updatedFeature.status, updatedAt := updatedFeature.updatedAt,
    providerId := updatedFeature.providerId, model := updatedFeature.model,
    planningMode := updatedFeature.planningMode, error := updatedFeature.error,
    plan :=
      if hasPlan then
        some { tasksCompleted := tasksCompleted, tasksTotal := tasksTotal,
               currentTaskId := planSpec.bind PlanSpec.currentTaskId,
               status := planSpec.bind PlanSpec.status }
      else none,
    missingFiles := missingFiles,
    dependencyRestoreCount := dependencyRestoreCount,
    dependencyRestoreCandidates := dependencyRestore.missing.take 5,
    hasAgentOutput := hasAgentOutput,
    issues := issues5,
    canResume := incompletePlan,
    canRebuild := !hasAgentOutput || decide (0 < missingFiles.length) }

/-- The recovery-center aggregation. Each loop iteration is independent of the
others, so the loop with its skip-and-count bookkeeping is expressed as a map
followed by a filter, with the counters recomputed over the kept items; the
summary is assembled at response time with `totalItems := items.length`. -/
def recoveryCenter (fs : FSState) (readFeatureFile : String → Option Feature)
    (now projectPath : String) (includeAll : Bool) (features : List Feature) :
    RecoverySummary × List RecoveryItem :=
  let allFeatureIds := features.map Feature.id
  let items :=
    (features.map (processRecoveryFeature fs readFeatureFile now projectPath allFeatureIds)).filter
      (fun item => !item.issues.isEmpty || includeAll)
  ({ total := items.countP (fun item => !item.issues.isEmpty),
     totalItems := items.length,
     incompletePlans := items.countP (fun item => item.canResume),
     missingFiles := (items.map (fun item => item.missingFiles.length)).sum,
     missingOutputs := items.countP (fun item => !item.hasAgentOutput),
     missingDependencies := (items.map RecoveryItem.dependencyRestoreCount).sum },
   items)

/-- Summary entry of the event index. -/
structure StoredEventSummary where
  id : String
  trigger : String
  timestamp : String
  featureName : Option String := none
  featureId : Option String := none
  deriving DecidableEq, Repr

/-- A stored event (`metadata` is carried verbatim, modelled as its serialized
text). -/
structure StoredEvent where
  id : String
  trigger : String
  timestamp : String
  projectPath : String
  projectName : String
  featureId : Option String := none
  featureName : Option String := none
  error : Option String := none
  errorType : Option String := none
  passes : Option Bool := none
  metadata : Option String := none
  deriving DecidableEq, Repr

/-- Input of `storeEvent`. -/
structure StoreEventInput where
  trigger : String
  projectPath : String
  featureId : Option String := none
  featureName : Option String := none
  error : Option String := none
  errorType : Option String := none
  passes : Option Bool := none
  metadata : Option String := none
  deriving DecidableEq, Repr

/-- `extractProjectName`: the last path segment, falling back to the whole
path when that segment is empty. -/
def extractProjectName (projectPath : String) : String :=
  let parts :=
    (splitCharsOn (fun c => decide (c = '/') || decide (c = '\\')) projectPath.data).map String.mk
  let last := parts.getLastD ""
  if last = "" then projectPath else last

/-- Modelled from the spec: `getEventPath` of the platform package (not under
src/) — one file per stored event inside the project-level events directory
`{projectPath}/.automaker/events/`. -/
def getEventPath (projectPath eventId : String) : String :=
  projectPath ++ "/.automaker/events/" ++ eventId ++ ".json"

/-- The store's state for one project: the summary index (newest first) and
the set of event files on disk (in creation order). -/
structure EventStoreState where
  index : List StoredEventSummary := []
  files : List String := []
  deriving DecidableEq, Repr

/-- Build the stored event from the input and the generated id/timestamp. -/
def mkStoredEvent (input : StoreEventInput) (eventId timestamp : String) : StoredEvent :=
  { id := eventId, trigger := input.trigger, timestamp := timestamp,
    projectPath := input.projectPath, projectName := extractProjectName input.projectPath,
    featureId := input.featureId, featureName := input.featureName,
    error := input.error, errorType := input.errorType, passes := input.passes,
    metadata := input.metadata }

/-- The compact summary appended to the index. -/
def summaryOfEvent (e : StoredEvent) : StoredEventSummary :=
  { id := e.id, trigger := e.trigger, timestamp := e.timestamp,
    featureName := e.featureName, featureId := e.featureId }

/-- `addToIndex`: prepend the summary, and when the index exceeds the maximum
drop the oldest excess summaries and delete their backing files. `unlinkOk`
tells which unlink calls succeed; a failed unlink is ignored. -/
def addToIndex (maxEvents : Nat) (unlinkOk : String → Bool) (projectPath : String)
    (st : EventStoreState) (e : StoredEvent) : EventStoreState :=
  let idx := summaryOfEvent e :: st.index
  if maxEvents < idx.length then
    let removed := idx.drop maxEvents
    { index := idx.take maxEvents,
      files := st.files.filter (fun p =>
        !(removed.any (fun s => decide (getEventPath projectPath s.id = p)) && unlinkOk p)) }
  else { st with index := idx }

/-- Creating the event's own file on disk. -/
def writeFileEntry (files : List String) (p : String) : List String :=
  if p ∈ files then files else files ++ [p]

/-- `storeEvent`: write the full event to its own file, then update the
index. -/
def storeEvent (maxEvents : Nat) (unlinkOk : String → Bool) (st : EventStoreState)
    (input : StoreEventInput) (eventId timestamp : String) : EventStoreState × StoredEvent :=
  let e := mkStoredEvent input eventId timestamp
  let st1 := { st with files := writeFileEntry st.files (getEventPath input.projectPath e.id) }
  (addToIndex maxEvents unlinkOk input.projectPath st1 e, e)

/-- A sequence of `storeEvent` calls, each call carrying its generated id and
timestamp. -/
def storeEvents (maxEvents : Nat) (unlinkOk : String → Bool) :
    EventStoreState → List (StoreEventInput × String × String) → EventStoreState
  | st, [] => st
  | st, (input, eventId, timestamp) :: rest =>
    storeEvents maxEvents unlinkOk (storeEvent maxEvents unlinkOk st input eventId timestamp).1 rest

/-- Failure injection points of `atomicWriteJson`: none, during the temp-file
write, or during the rename. -/
inductive WriteOutcome where
  | ok
  | failWrite
  | failRename
  deriving DecidableEq, Repr

/-- Pointwise update of a path-to-content map. -/
def fsSet (fs : String → Option String) (p : String) (v : Option String) :
    String → Option String :=
  fun q => if q = p then v else fs q

/-- `atomicWriteJson` under an injected outcome: serialize (abstracted as the
`content` string), write to `filePath ++ ".tmp." ++ now`, rename over the
target; on failure attempt to unlink the temp file inside its own try/catch
whose errors are ignored (`unlinkOk` tells whether that unlink succeeds), then
propagate the original error. The first component lists the observable
filesystem states in order. On a failed write the temp file may hold arbitrary
partial bytes (`partialContent`). -/
def atomicWriteJson (fs : String → Option String) (filePath content now : String)
    (outcome : WriteOutcome) (partialContent : Option String) (unlinkOk : Bool) :
    List (String → Option String) × Except String (String → Option String) :=
  let tempPath := filePath ++ ".tmp." ++ now
  match outcome with
  | WriteOutcome.ok =>
    let s1 := fsSet fs tempPath (some content)
    let s2 := fsSet (fsSet s1 filePath (some content)) tempPath none
    ([fs, s1, s2], Except.ok s2)
  | WriteOutcome.failWrite =>
    let s1 := fsSet fs tempPath partialContent
    let s2 := if unlinkOk then fsSet s1 tempPath none else s1
    ([fs, s1, s2], Except.error "write failed")
  | WriteOutcome.failRename =>
    let s1 := fsSet fs tempPath (some content)
    let s2 := if unlinkOk then fsSet s1 tempPath none else s1
    ([fs, s1, s2], Except.error "rename failed")

/-- A subscriber callback: a state transformer that may also throw (the thrown
message returned as data). -/
def SubscriberFn (P σ : Type) : Type := P → σ → σ × Option String

/-- The non-batching branch of `emit`: deliver to every current subscriber in
registration order, catching each thrown error and logging it (the collected
log is the second component). -/
def emitDefault {P σ : Type} (subs : List (SubscriberFn P σ)) (p : P) (s : σ) :
    σ × List String :=
  match subs with
  | [] => (s, [])
  | cb :: rest =>
    let r := cb p s
    let tail := emitDefault rest p r.1
    (tail.1, (match r.2 with | some e => [e] | none => []) ++ tail.2)

theorem mem_dedupAux (x : String) (l : List String) :
    ∀ seen : List String, x ∈ dedupAux seen l ↔ x ∈ l ∧ x ∉ seen := by
  induction l with
  | nil => intro seen; simp [dedupAux]
  | cons y ys ih =>
    intro seen
    by_cases hy : y ∈ seen
    · rw [dedupAux, if_pos hy, ih]
      constructor
      · rintro ⟨h1, h2⟩
        exact ⟨List.mem_cons_of_mem _ h1, h2⟩
      · rintro ⟨h1, h2⟩
        rcases List.mem_cons.mp h1 with he | hm
        · exact absurd (he ▸ hy) h2
        · exact ⟨hm, h2⟩
    · rw [dedupAux, if_neg hy]
      by_cases hxy : x = y
      · subst hxy
        simp [hy]
      · rw [List.mem_cons, ih]
        simp only [List.mem_cons, hxy, false_or]

theorem nodup_dedupAux (l : List String) : ∀ seen : List String, (dedupAux seen l).Nodup := by
  induction l with
  | nil => intro seen; simp [dedupAux]
  | cons y ys ih =>
    intro seen
    by_cases hy : y ∈ seen
    · rw [dedupAux, if_pos hy]; exact ih seen
    · rw [dedupAux, if_neg hy, List.nodup_cons]
      refine ⟨fun hm => ?_, ih (y :: seen)⟩
      exact ((mem_dedupAux y ys (y :: seen)).mp hm).2 (List.mem_cons_self y seen)

theorem mem_dedupFirst (x : String) (l : List String) : x ∈ dedupFirst l ↔ x ∈ l := by
  rw [dedupFirst, mem_dedupAux]
  simp

theorem nodup_dedupFirst (l : List String) : (dedupFirst l).Nodup := nodup_dedupAux l []

theorem mem_normalizeDependencies (x : String) (deps : List String) :
    x ∈ normalizeDependencies deps ↔ (∃ d ∈ deps, jsTrim d = x) ∧ x ≠ "" := by
  rw [normalizeDependencies, mem_dedupFirst, List.mem_filter]
  simp only [List.mem_map, decide_eq_true_eq]

/-- C5: `getDependencyRestoreCandidates` is a pure set operation: `candidates`
is the trimmed, de-duplicated union of the backup and plan evidence with the
record's own id removed (in particular the own id is never a candidate), and
`missing` holds exactly the candidates that are known ids and are not already
in the record's current dependency set. -/
theorem dependency_restore_candidates_pure (args : DependencyRestoreArgs) :
    (getDependencyRestoreCandidates args).candidates.Nodup ∧
    args.feature.id ∉ (getDependencyRestoreCandidates args).candidates ∧
    (∀ x : String,
      x ∈ (getDependencyRestoreCandidates args).candidates ↔
        ((∃ d, (d ∈ args.backupDependencies ∨ d ∈ args.planDependencies) ∧ jsTrim d = x) ∧
          x ≠ "" ∧ x ≠ args.feature.id)) ∧
    (∀ x : String,
      x ∈ (getDependencyRestoreCandidates args).missing ↔
        (x ∈ (getDependencyRestoreCandidates args).candidates ∧ x ∈ args.allFeatureIds ∧
          x ∉ args.feature.dependencies.getD [])) := by
  have hcand : ∀ x : String,
      x ∈ (getDependencyRestoreCandidates args).candidates ↔
        ((∃ d, (d ∈ args.backupDependencies ∨ d ∈ args.planDependencies) ∧ jsTrim d = x) ∧
          x ≠ "" ∧ x ≠ args.feature.id) := by
    intro x
    show x ∈ (normalizeDependencies _).filter _ ↔ _
    rw [List.mem_filter, mem_normalizeDependencies]
    simp only [List.mem_append, decide_eq_true_eq]
    rw [and_assoc]
  refine ⟨?_, ?_, hcand, ?_⟩
  · exact (nodup_dedupFirst _).filter _
  · intro hmem
    have := ((hcand _).mp hmem).2.2
    exact this rfl
  · intro x
    constructor
    · intro hm
      have hm' := List.mem_filter.mp hm
      have hx := hm'.1
      have hb := hm'.2
      have hne : x ≠ "" := ((hcand x).mp hx).2.1
      simp only [Bool.and_eq_true, Bool.not_eq_true', decide_eq_false_iff_not,
        decide_eq_true_eq] at hb
      refine ⟨hx, hb.2, fun hd => hb.1 ?_⟩
      exact List.mem_filter.mpr ⟨hd, by simpa using hne⟩
    · rintro ⟨hx, hall, hnd⟩
      refine List.mem_filter.mpr ⟨hx, ?_⟩
      simp only [Bool.and_eq_true, Bool.not_eq_true', decide_eq_false_iff_not,
        decide_eq_true_eq]
      exact ⟨fun hc => hnd (List.mem_filter.mp hc).1, hall⟩

/-- C6: live dependency restore is additive. The persisted dependency set
after the live update is the union of the prior dependencies and the computed
`missing` set, no currently declared dependency is removed, a non-empty
`missing` always persists a non-empty list, and the operation never writes an
empty array (an empty `some []` can only be the untouched prior field). -/
theorem restore_dependencies_additive (now : String)
    (allFeatureIds backupDeps planDeps : List String) (f : Feature) :
    (∀ x : String,
      x ∈ ((restoreDependenciesApply now false allFeatureIds backupDeps planDeps f).1).dependencies.getD [] ↔
        (x ∈ f.dependencies.getD [] ∨
          x ∈ (getDependencyRestoreCandidates
            { feature := f, allFeatureIds := allFeatureIds,
              backupDependencies := backupDeps, planDependencies := planDeps }).missing)) ∧
    (∀ x : String, x ∈ f.dependencies.getD [] →
      x ∈ ((restoreDependenciesApply now false allFeatureIds backupDeps planDeps f).1).dependencies.getD []) ∧
    ((getDependencyRestoreCandidates
        { feature := f, allFeatureIds := allFeatureIds,
          backupDependencies := backupDeps, planDependencies := planDeps }).missing ≠ [] →
      ∃ l, ((restoreDependenciesApply now false allFeatureIds backupDeps planDeps f).1).dependencies = some l ∧ l ≠ []) ∧
    (((restoreDependenciesApply now false allFeatureIds backupDeps planDeps f).1).dependencies = some [] →
      (restoreDependenciesApply now false allFeatureIds backupDeps planDeps f).1 = f) := by
  by_cases hm :
      (getDependencyRestoreCandidates
        { feature := f, allFeatureIds := allFeatureIds,
          backupDependencies := backupDeps, planDependencies := planDeps }).missing = []
  · have hf2 : (restoreDependenciesApply now false allFeatureIds backupDeps planDeps f).1 = f := by
      rw [restoreDependenciesApply]
      simp [hm]
    rw [hf2]
    refine ⟨fun x => by simp [hm], fun x hx => hx, fun h => absurd hm h, fun _ => rfl⟩
  · have hpos : 0 < (dedupFirst (f.dependencies.getD [] ++
        (getDependencyRestoreCandidates
          { feature := f, allFeatureIds := allFeatureIds,
            backupDependencies := backupDeps, planDependencies := planDeps }).missing)).length := by
      rcases List.exists_mem_of_ne_nil _ hm with ⟨m, hmem⟩
      have : m ∈ dedupFirst (f.dependencies.getD [] ++
          (getDependencyRestoreCandidates
            { feature := f, allFeatureIds := allFeatureIds,
              backupDependencies := backupDeps, planDependencies := planDeps }).missing) := by
        rw [mem_dedupFirst]
        exact List.mem_append_right _ hmem
      exact List.length_pos.mpr (List.ne_nil_of_mem this)
    have hf2 : (restoreDependenciesApply now false allFeatureIds backupDeps planDeps f).1 =
        applyDependenciesUpdate f
          (some (dedupFirst (f.dependencies.getD [] ++
            (getDependencyRestoreCandidates
              { feature := f, allFeatureIds := allFeatureIds,
                backupDependencies := backupDeps, planDependencies := planDeps }).missing))) now := by
      rw [restoreDependenciesApply]
      simp [hm, hpos, List.isEmpty_iff]
    rw [hf2]
    refine ⟨fun x => ?_, fun x hx => ?_, fun _ => ?_, fun he => ?_⟩
    · show x ∈ dedupFirst _ ↔ _
      rw [mem_dedupFirst, List.mem_append]
    · show x ∈ dedupFirst _
      rw [mem_dedupFirst]
      exact List.mem_append_left _ hx
    · refine ⟨_, rfl, ?_⟩
      exact fun h0 => by rw [h0] at hpos; simp at hpos
    · exfalso
      have : dedupFirst (f.dependencies.getD [] ++
          (getDependencyRestoreCandidates
            { feature := f, allFeatureIds := allFeatureIds,
              backupDependencies := backupDeps, planDependencies := planDeps }).missing) = [] :=
        Option.some_injective _ he
      rw [this] at hpos
      simp at hpos

theorem tempPath_ne_filePath (filePath now : String) : filePath ++ ".tmp." ++ now ≠ filePath := by
  intro h
  have hl := congrArg String.length h
  rw [String.length_append, String.length_append] at hl
  have h5 : (".tmp." : String).length = 5 := rfl
  rw [h5] at hl
  omega

/-- C8 (amended): index writes are atomic. In every observable intermediate
state the target path holds either the prior content or the full new content
(never a half-written value); a successful outcome installs the new content
and removes the temp file; a failing outcome propagates an error and leaves
the target untouched, with removal of the temp file only attempted: when the
cleanup unlink succeeds the temp file is gone, and when it fails (its error
ignored) the temp file is left holding whatever the failed step wrote. -/
theorem atomic_write_crash_safety_amended (fs : String → Option String)
    (filePath content now : String) (outcome : WriteOutcome)
    (partialContent : Option String) (unlinkOk : Bool) :
    (∀ s ∈ (atomicWriteJson fs filePath content now outcome partialContent unlinkOk).1,
        s filePath = fs filePath ∨ s filePath = some content) ∧
    (outcome = WriteOutcome.ok →
      ∃ s2, (atomicWriteJson fs filePath content now outcome partialContent unlinkOk).2 =
          Except.ok s2 ∧
        s2 filePath = some content ∧ s2 (filePath ++ ".tmp." ++ now) = none) ∧
    (outcome ≠ WriteOutcome.ok →
      ∃ e, (atomicWriteJson fs filePath content now outcome partialContent unlinkOk).2 =
          Except.error e ∧
        ((atomicWriteJson fs filePath content now outcome partialContent unlinkOk).1.getLastD
            fs) filePath = fs filePath ∧
        (unlinkOk = true →
          ((atomicWriteJson fs filePath content now outcome partialContent unlinkOk).1.getLastD
              fs) (filePath ++ ".tmp." ++ now) = none) ∧
        (unlinkOk = false →
          ((atomicWriteJson fs filePath content now outcome partialContent unlinkOk).1.getLastD
              fs) (filePath ++ ".tmp." ++ now) =
            (if outcome = WriteOutcome.failWrite then partialContent else some content))) := by
  have hne : ¬(filePath = filePath ++ ".tmp." ++ now) :=
    fun h => tempPath_ne_filePath filePath now h.symm
  cases outcome with
  | ok =>
    refine ⟨?_, fun _ => ⟨_, rfl, ?_, ?_⟩, fun h => absurd rfl h⟩
    · intro s hs
      simp only [atomicWriteJson, List.mem_cons, List.not_mem_nil, or_false] at hs
      rcases hs with h | h | h <;> subst h
      · exact Or.inl rfl
      · exact Or.inl (by simp [fsSet, hne])
      · exact Or.inr (by simp [fsSet, hne])
    · simp [atomicWriteJson, fsSet, hne]
    · simp [atomicWriteJson, fsSet]
  | failWrite =>
    cases unlinkOk with
    | true =>
      refine ⟨?_, fun h => absurd h (by decide),
        fun _ => ⟨_, rfl, ?_, fun _ => ?_, fun h => absurd h (by decide)⟩⟩
      · intro s hs
        simp only [atomicWriteJson, List.mem_cons, List.not_mem_nil, or_false] at hs
        rcases hs with h | h | h <;> subst h
        · exact Or.inl rfl
        · exact Or.inl (by simp [fsSet, hne])
        · exact Or.inl (by simp [fsSet, hne])
      · simp [atomicWriteJson, fsSet, hne, List.getLastD]
      · simp [atomicWriteJson, fsSet, List.getLastD]
    | false =>
      refine ⟨?_, fun h => absurd h (by decide),
        fun _ => ⟨_, rfl, ?_, fun h => absurd h (by decide), fun _ => ?_⟩⟩
      · intro s hs
        simp only [atomicWriteJson, List.mem_cons, List.not_mem_nil, or_false] at hs
        rcases hs with h | h | h <;> subst h
        · exact Or.inl rfl
        · exact Or.inl (by simp [fsSet, hne])
        · exact Or.inl (by simp [fsSet, hne])
      · simp [atomicWriteJson, fsSet, hne, List.getLastD]
      · simp [atomicWriteJson, fsSet, List.getLastD]
  | failRename =>
    cases unlinkOk with
    | true =>
      refine ⟨?_, fun h => absurd h (by decide),
        fun _ => ⟨_, rfl, ?_, fun _ => ?_, fun h => absurd h (by decide)⟩⟩
      · intro s hs
        simp only [atomicWriteJson, List.mem_cons, List.not_mem_nil, or_false] at hs
        rcases hs with h | h | h <;> subst h
        · exact Or.inl rfl
        · exact Or.inl (by simp [fsSet, hne])
        · exact Or.inl (by simp [fsSet, hne])
      · simp [atomicWriteJson, fsSet, hne, List.getLastD]
      · simp [atomicWriteJson, fsSet, List.getLastD]
    | false =>
      refine ⟨?_, fun h => absurd h (by decide),
        fun _ => ⟨_, rfl, ?_, fun h => absurd h (by decide), fun _ => ?_⟩⟩
      · intro s hs
        simp only [atomicWriteJson, List.mem_cons, List.not_mem_nil, or_false] at hs
        rcases hs with h | h | h <;> subst h
        · exact Or.inl rfl
        · exact Or.inl (by simp [fsSet, hne])
        · exact Or.inl (by simp [fsSet, hne])
      · simp [atomicWriteJson, fsSet, hne, List.getLastD]
      · simp [atomicWriteJson, fsSet, List.getLastD]

/-- C8 counterexample: the original claim that on failure the temporary file is
removed fails at a concrete input — a rename failure whose cleanup unlink also
fails (that error ignored, as in the source) propagates the rename error but
leaves the temp file behind holding the new content. -/
theorem atomic_write_temp_left_cex :
    (atomicWriteJson (fun _ => none) "idx" "new" "1"
        WriteOutcome.failRename none false).2 = Except.error "rename failed" ∧
    ((atomicWriteJson (fun _ => none) "idx" "new" "1"
        WriteOutcome.failRename none false).1.getLastD (fun _ => none))
        ("idx" ++ ".tmp." ++ "1") = some "new" := by
  exact ⟨rfl, rfl⟩

theorem emitDefault_fst (P σ : Type) (subs : List (SubscriberFn P σ)) (p : P) :
    ∀ s : σ, (emitDefault subs p s).1 = subs.foldl (fun st cb => (cb p st).1) s := by
  induction subs with
  | nil => intro s; rfl
  | cons cb rest ih =>
    intro s
    show (emitDefault rest p (cb p s).1).1 = _
    rw [ih, List.foldl_cons]

theorem emitDefault_taggers (errs : Nat → Option String) (l : List Nat) :
    ∀ s0 : List Nat,
      emitDefault (l.map (fun i =>
          (fun _ s => (s ++ [i], errs i) : SubscriberFn Unit (List Nat)))) () s0 =
        (s0 ++ l, l.filterMap errs) := by
  induction l with
  | nil => intro s0; simp [emitDefault]
  | cons i rest ih =>
    intro s0
    show ((emitDefault _ () (s0 ++ [i])).1, _ ++ (emitDefault _ () (s0 ++ [i])).2) = _
    rw [ih (s0 ++ [i])]
    simp [List.filterMap_cons]
    cases errs i <;> simp

/-- C9: fan-out isolation in default (non-batching) mode. Every current
subscriber's callback is applied exactly once, in registration order, to the
evolving state — a thrown error is returned in the log instead of propagating
and does not prevent later subscribers from running. The second part
instantiates state-tagging subscribers with an arbitrary pattern of thrown
errors: each appends its registration index exactly once and in order, and the
log collects exactly the thrown errors. -/
theorem emit_fanout_isolation :
    (∀ (P σ : Type) (subs : List (SubscriberFn P σ)) (p : P) (s : σ),
      (emitDefault subs p s).1 = subs.foldl (fun st cb => (cb p st).1) s) ∧
    (∀ (n : Nat) (errs : Nat → Option String) (s0 : List Nat),
      emitDefault ((List.range n).map (fun i =>
          (fun _ s => (s ++ [i], errs i) : SubscriberFn Unit (List Nat)))) () s0 =
        (s0 ++ List.range n, (List.range n).filterMap errs)) :=
  ⟨fun P σ subs p s => emitDefault_fst P σ subs p s,
   fun n errs s0 => emitDefault_taggers errs (List.range n) s0⟩

theorem tasksEmpty_false_iff (ps : PlanSpec) : tasksEmpty ps = false ↔ ps.tasks.getD [] ≠ [] := by
  cases h : ps.tasks with
  | none => simp [tasksEmpty, h]
  | some l =>
    cases l with
    | nil => simp [tasksEmpty, h]
    | cons x xs => simp [tasksEmpty, h]

theorem resolveStep1_of_tasks_not_empty (ps : PlanSpec) (h : tasksEmpty ps = false) :
    resolveStep1 ps = ps := by
  rw [resolveStep1]
  simp [h]

theorem resolveStep2_of_tasks_not_empty (fs : FSState) (pp fid : String) (ps : PlanSpec)
    (h : tasksEmpty ps = false) : resolveStep2 fs pp fid ps = ps := by
  rw [resolveStep2]
  simp [h]

theorem resolveStep1_cases (ps : PlanSpec) :
    resolveStep1 ps = ps ∨ tasksEmpty (resolveStep1 ps) = false := by
  rw [resolveStep1]
  split
  · dsimp only
    split
    · exact Or.inl rfl
    · rename_i hp
      right
      simp only [tasksEmpty]
      simpa using hp
  · exact Or.inl rfl

theorem resolveStep2_cases (fs : FSState) (pp fid : String) (ps : PlanSpec) :
    resolveStep2 fs pp fid ps = ps ∨ tasksEmpty (resolveStep2 fs pp fid ps) = false := by
  rw [resolveStep2]
  split
  · split
    · dsimp only
      split
      · exact Or.inl rfl
      · rename_i hp
        right
        simp only [tasksEmpty]
        simpa using hp
    · exact Or.inl rfl
  · exact Or.inl rfl

theorem resolveSteps_of_tasksEmpty_eq (fs : FSState) (pp fid : String) (ps : PlanSpec)
    (h : tasksEmpty (resolveSteps fs pp fid ps) = true) : resolveSteps fs pp fid ps = ps := by
  rcases resolveStep2_cases fs pp fid (resolveStep1 ps) with h2 | h2
  · rw [resolveSteps] at h ⊢
    rw [h2] at h ⊢
    rcases resolveStep1_cases ps with h1 | h1
    · exact h1
    · rw [h1] at h
      cases h
  · exfalso
    rw [resolveSteps] at h
    rw [h] at h2
    cases h2

theorem resolveSteps_of_tasks_not_empty (fs : FSState) (pp fid : String) (ps : PlanSpec)
    (h : tasksEmpty ps = false) : resolveSteps fs pp fid ps = ps := by
  rw [resolveSteps, resolveStep1_of_tasks_not_empty ps h, resolveStep2_of_tasks_not_empty fs pp fid ps h]

theorem resolveSteps_idem (fs : FSState) (pp fid : String) (ps : PlanSpec) :
    resolveSteps fs pp fid (resolveSteps fs pp fid ps) = resolveSteps fs pp fid ps := by
  by_cases h : tasksEmpty (resolveSteps fs pp fid ps) = true
  · have e := resolveSteps_of_tasksEmpty_eq fs pp fid ps h
    rw [e]
    exact e
  · have h' : tasksEmpty (resolveSteps fs pp fid ps) = false := by
      cases hb : tasksEmpty (resolveSteps fs pp fid ps) with
      | true => exact absurd hb h
      | false => rfl
    exact resolveSteps_of_tasks_not_empty fs pp fid _ h'

theorem reconcile_fst_eq (fs : FSState) (pp : String) (f : Feature) :
    (reconcileFeaturePlanSpec fs pp f).1 = { f with planSpec := some (resolvePlanSpec fs pp f) } :=
  rfl

theorem resolvePlanSpec_reconcile_fst (fs : FSState) (pp : String) (f : Feature) :
    resolvePlanSpec fs pp (reconcileFeaturePlanSpec fs pp f).1 = resolvePlanSpec fs pp f :=
  resolveSteps_idem fs pp f.id (f.planSpec.getD {})

theorem reconcile_snd_eq (fs : FSState) (pp : String) (f : Feature) :
    (reconcileFeaturePlanSpec fs pp f).2 =
      (match (resolvePlanSpec fs pp f).tasks with
       | none => none
       | some ts =>
         if ts.isEmpty then none else some (reconcileTasksPhase fs pp f ts)) :=
  rfl

theorem reconcileTasksPhase_fst_planSpec (fs : FSState) (pp : String) (f : Feature)
    (ts : List ParsedTask) :
    reconcileTasksPhase fs pp (reconcileFeaturePlanSpec fs pp f).1 ts =
      reconcileTasksPhase fs pp f ts :=
  rfl

/-- C2: `reconcileFeaturePlanSpec` is idempotent. With the filesystem
unchanged, running it again on the record resulting from the first run yields
an identical reconciliation result. -/
theorem reconcile_idempotent (fs : FSState) (pp : String) (f : Feature) :
    (reconcileFeaturePlanSpec fs pp (reconcileFeaturePlanSpec fs pp f).1).2 =
      (reconcileFeaturePlanSpec fs pp f).2 := by
  rw [reconcile_snd_eq fs pp (reconcileFeaturePlanSpec fs pp f).1, reconcile_snd_eq fs pp f,
    resolvePlanSpec_reconcile_fst]
  cases (resolvePlanSpec fs pp f).tasks with
  | none => rfl
  | some ts =>
    simp only [reconcileTasksPhase_fst_planSpec]

theorem firstHit_isSome_iff (fs : FSState) (l : List String) :
    (firstHit fs l).isSome = l.any (fun c => (fs.stat c).isSome) := by
  induction l with
  | nil => rfl
  | cons c rest ih =>
    cases h : fs.stat c with
    | some m => simp [firstHit, h]
    | none => simp [firstHit, h, ih]

theorem strTruthy_isSome (o : Option String) (h : strTruthy o = true) : o.isSome = true := by
  cases o with
  | none => cases h
  | some s => rfl

theorem getD_pending_eq_failed_iff (o : Option TaskStatus) :
    (o.getD TaskStatus.pending = TaskStatus.failed) ↔ o = some TaskStatus.failed := by
  cases o <;> simp


theorem adjustStartedAt_filePath (f : Feature) (t : ParsedTask) :
    (adjustStartedAt f t).filePath = t.filePath := by
  rw [adjustStartedAt]; split <;> rfl

theorem adjustStartedAt_status (f : Feature) (t : ParsedTask) :
    (adjustStartedAt f t).status = t.status := by
  rw [adjustStartedAt]; split <;> rfl

theorem adjustStartedAt_completedAt (f : Feature) (t : ParsedTask) :
    (adjustStartedAt f t).completedAt = t.completedAt := by
  rw [adjustStartedAt]; split <;> rfl

theorem probeTask_none (fs : FSState) (pp : String) (f : Feature) (u : ParsedTask)
    (hfp : u.filePath = none) : probeTask fs pp f u = (u, none) := by
  rw [probeTask]; simp only [hfp]

theorem probeTask_empty (fs : FSState) (pp : String) (f : Feature) (u : ParsedTask)
    (hfp : u.filePath = some "") : probeTask fs pp f u = (u, none) := by
  rw [probeTask]; simp only [hfp]; simp

theorem probeTask_hit (fs : FSState) (pp : String) (f : Feature) (u : ParsedTask)
    (fp m : String) (hfp : u.filePath = some fp) (hne : fp ≠ "")
    (hm : firstHit fs (candidatePaths pp f fp) = some m) :
    probeTask fs pp f u =
      ({ u with
          status := some TaskStatus.completed,
          completedAt := if strTruthy u.completedAt then u.completedAt else some m }, none) := by
  rw [probeTask]; simp only [hfp]; rw [if_neg hne, hm]

theorem probeTask_miss (fs : FSState) (pp : String) (f : Feature) (u : ParsedTask)
    (fp : String) (hfp : u.filePath = some fp) (hne : fp ≠ "")
    (h0 : firstHit fs (candidatePaths pp f fp) = none) :
    probeTask fs pp f u =
      ({ u with
          status := if u.status = some TaskStatus.failed then u.status
                    else some TaskStatus.pending }, some fp) := by
  rw [probeTask]; simp only [hfp]; rw [if_neg hne, h0]

theorem firstHit_none_of_any_false (fs : FSState) (l : List String)
    (h : l.any (fun c => (fs.stat c).isSome) = false) : firstHit fs l = none := by
  cases h' : firstHit fs l with
  | none => rfl
  | some m =>
    have hs := firstHit_isSome_iff fs l
    rw [h', h] at hs
    exact Bool.noConfusion hs

theorem firstHit_some_of_any_true (fs : FSState) (l : List String)
    (h : l.any (fun c => (fs.stat c).isSome) = true) : ∃ m, firstHit fs l = some m := by
  cases h' : firstHit fs l with
  | some m => exact ⟨m, rfl⟩
  | none =>
    have hs := firstHit_isSome_iff fs l
    rw [h', h] at hs
    exact Bool.noConfusion hs

theorem normalizeTaskStatus_filePath (t : ParsedTask) :
    (normalizeTaskStatus t).filePath = t.filePath := rfl

theorem normalizeTaskStatus_completedAt (t : ParsedTask) :
    (normalizeTaskStatus t).completedAt = t.completedAt := rfl

theorem normalizeTaskStatus_status (t : ParsedTask) :
    (normalizeTaskStatus t).status = some (t.status.getD TaskStatus.pending) := rfl

theorem reconcileTasksPhase_tasks (fs : FSState) (pp : String) (f : Feature)
    (ts : List ParsedTask) :
    (reconcileTasksPhase fs pp f ts).tasks =
      ts.map (fun t => (reconcileOneTask fs pp f (normalizeTaskStatus t)).1) := by
  show ((ts.map normalizeTaskStatus).map (reconcileOneTask fs pp f)).map Prod.fst = _
  rw [List.map_map, List.map_map]
  rfl

theorem reconcileTasksPhase_missingFiles (fs : FSState) (pp : String) (f : Feature)
    (ts : List ParsedTask) :
    (reconcileTasksPhase fs pp f ts).missingFiles =
      ((ts.map normalizeTaskStatus).map (reconcileOneTask fs pp f)).filterMap Prod.snd :=
  rfl

theorem reconcile_result_eq (fs : FSState) (pp : String) (f : Feature)
    (r : PlanReconcileResult) (hr : (reconcileFeaturePlanSpec fs pp f).2 = some r) :
    r = reconcileTasksPhase fs pp f (inputTasks fs pp f) := by
  rw [reconcile_snd_eq] at hr
  cases htasks : (resolvePlanSpec fs pp f).tasks with
  | none => rw [htasks] at hr; cases hr
  | some ts =>
    simp only [htasks] at hr
    by_cases he : ts.isEmpty
    · rw [if_pos he] at hr; cases hr
    · rw [if_neg he] at hr
      injection hr with h
      simp only [inputTasks, htasks, Option.getD_some]
      exact h.symm

/-- C1: per-task evidence override. For every resolved task with a truthy
file path: when some candidate path exists, the reconciled task is completed
with `completedAt` set (backfilled from the first hit's mtime when it was not
already set); when no candidate path exists, the path is appended to
`missingFiles` and a prior pending/in-progress/completed status is forced to
pending. -/
theorem reconcile_task_evidence_override
    (fs : FSState) (pp : String) (f : Feature) (r : PlanReconcileResult)
    (hr : (reconcileFeaturePlanSpec fs pp f).2 = some r)
    (i : Nat) (hi : i < (inputTasks fs pp f).length) (fp : String)
    (hfp : ((inputTasks fs pp f).get ⟨i, hi⟩).filePath = some fp) (hne : fp ≠ "") :
    ∃ hi2 : i < r.tasks.length,
      ((candidatePaths pp f fp).any (fun c => (fs.stat c).isSome) = true →
        (r.tasks.get ⟨i, hi2⟩).status = some TaskStatus.completed ∧
        (r.tasks.get ⟨i, hi2⟩).completedAt.isSome = true ∧
        (strTruthy ((inputTasks fs pp f).get ⟨i, hi⟩).completedAt = false →
          (r.tasks.get ⟨i, hi2⟩).completedAt = firstHit fs (candidatePaths pp f fp))) ∧
      ((candidatePaths pp f fp).any (fun c => (fs.stat c).isSome) = false →
        fp ∈ r.missingFiles ∧
        (((inputTasks fs pp f).get ⟨i, hi⟩).status ≠ some TaskStatus.failed →
          (r.tasks.get ⟨i, hi2⟩).status = some TaskStatus.pending)) := by
  have hre := reconcile_result_eq fs pp f r hr
  subst hre
  have hmap : (reconcileTasksPhase fs pp f (inputTasks fs pp f)).tasks =
      (inputTasks fs pp f).map
        (fun t => (reconcileOneTask fs pp f (normalizeTaskStatus t)).1) :=
    reconcileTasksPhase_tasks fs pp f (inputTasks fs pp f)
  have hi2 : i < (reconcileTasksPhase fs pp f (inputTasks fs pp f)).tasks.length := by
    rw [hmap, List.length_map]; exact hi
  have hget : (reconcileTasksPhase fs pp f (inputTasks fs pp f)).tasks.get ⟨i, hi2⟩ =
      (reconcileOneTask fs pp f
        (normalizeTaskStatus ((inputTasks fs pp f).get ⟨i, hi⟩))).1 := by
    have h1 := List.get_of_eq hmap ⟨i, hi2⟩
    rw [List.get_map] at h1
    exact h1
  have hu_fp :
      (adjustStartedAt f (normalizeTaskStatus ((inputTasks fs pp f).get ⟨i, hi⟩))).filePath =
        some fp := by
    rw [adjustStartedAt_filePath, normalizeTaskStatus_filePath]; exact hfp
  have hone : reconcileOneTask fs pp f (normalizeTaskStatus ((inputTasks fs pp f).get ⟨i, hi⟩)) =
      probeTask fs pp f
        (adjustStartedAt f (normalizeTaskStatus ((inputTasks fs pp f).get ⟨i, hi⟩))) := rfl
  refine ⟨hi2, ?_, ?_⟩
  · intro hany
    obtain ⟨m, hm⟩ := firstHit_some_of_any_true fs _ hany
    have hprobe := probeTask_hit fs pp f
      (adjustStartedAt f (normalizeTaskStatus ((inputTasks fs pp f).get ⟨i, hi⟩))) fp m hu_fp hne hm
    rw [hget, hone, hprobe]
    refine ⟨rfl, ?_, ?_⟩
    · dsimp only
      by_cases hc : strTruthy
          (adjustStartedAt f
            (normalizeTaskStatus ((inputTasks fs pp f).get ⟨i, hi⟩))).completedAt = true
      · rw [if_pos hc]; exact strTruthy_isSome _ hc
      · rw [if_neg hc]; rfl
    · intro hcf
      have hc : strTruthy
          (adjustStartedAt f
            (normalizeTaskStatus ((inputTasks fs pp f).get ⟨i, hi⟩))).completedAt = false := by
        rw [adjustStartedAt_completedAt, normalizeTaskStatus_completedAt]; exact hcf
      dsimp only
      rw [if_neg (by rw [hc]; exact Bool.false_ne_true), hm]
  · intro hany
    have h0 := firstHit_none_of_any_false fs _ hany
    have hprobe := probeTask_miss fs pp f
      (adjustStartedAt f (normalizeTaskStatus ((inputTasks fs pp f).get ⟨i, hi⟩))) fp hu_fp hne h0
    constructor
    · rw [reconcileTasksPhase_missingFiles]
      apply List.mem_filterMap.mpr
      refine ⟨reconcileOneTask fs pp f
        (normalizeTaskStatus ((inputTasks fs pp f).get ⟨i, hi⟩)), ?_, ?_⟩
      · exact List.mem_map.mpr
          ⟨normalizeTaskStatus ((inputTasks fs pp f).get ⟨i, hi⟩),
            List.mem_map.mpr ⟨(inputTasks fs pp f).get ⟨i, hi⟩, List.get_mem _ _ _, rfl⟩, rfl⟩
      · rw [hone, hprobe]
    · intro hnf
      rw [hget, hone, hprobe]
      dsimp only
      rw [adjustStartedAt_status, normalizeTaskStatus_status]
      rw [if_neg (fun hcon => hnf ((getD_pending_eq_failed_iff _).mp (Option.some_injective _ hcon)))]

theorem taskEvidenceFound_none (fs : FSState) (pp : String) (f : Feature) (t : ParsedTask)
    (hfp : t.filePath = none) : taskEvidenceFound fs pp f t = false := by
  rw [taskEvidenceFound, hfp]

theorem taskEvidenceFound_empty (fs : FSState) (pp : String) (f : Feature) (t : ParsedTask)
    (hfp : t.filePath = some "") : taskEvidenceFound fs pp f t = false := by
  rw [taskEvidenceFound, hfp]
  simp

theorem taskEvidenceFound_some (fs : FSState) (pp : String) (f : Feature) (t : ParsedTask)
    (fp : String) (hfp : t.filePath = some fp) (hne : fp ≠ "") :
    taskEvidenceFound fs pp f t =
      (candidatePaths pp f fp).any (fun c => (fs.stat c).isSome) := by
  rw [taskEvidenceFound, hfp]
  simp [hne]

theorem reconcileOneTask_failed_facts (fs : FSState) (pp : String) (f : Feature)
    (t : ParsedTask) :
    ((t.status = some TaskStatus.failed ∧ taskEvidenceFound fs pp f t = false) →
      (reconcileOneTask fs pp f t).1.status = some TaskStatus.failed) ∧
    ((t.status = some TaskStatus.failed ∧ taskEvidenceFound fs pp f t = true) →
      (reconcileOneTask fs pp f t).1.status = some TaskStatus.completed) ∧
    ((reconcileOneTask fs pp f t).1.status = some TaskStatus.failed →
      t.status = some TaskStatus.failed) := by
  have hone : reconcileOneTask fs pp f t = probeTask fs pp f (adjustStartedAt f t) := rfl
  have hst := adjustStartedAt_status f t
  cases hfp : t.filePath with
  | none =>
    have hp := probeTask_none fs pp f (adjustStartedAt f t)
      (by rw [adjustStartedAt_filePath]; exact hfp)
    rw [hone, hp]
    have hev := taskEvidenceFound_none fs pp f t hfp
    exact ⟨fun h => by rw [hst]; exact h.1,
      fun h => absurd (hev ▸ h.2) (by simp),
      fun h => by rw [hst] at h; exact h⟩
  | some fp =>
    by_cases hne : fp = ""
    · subst hne
      have hp := probeTask_empty fs pp f (adjustStartedAt f t)
        (by rw [adjustStartedAt_filePath]; exact hfp)
      rw [hone, hp]
      have hev := taskEvidenceFound_empty fs pp f t hfp
      exact ⟨fun h => by rw [hst]; exact h.1,
        fun h => absurd (hev ▸ h.2) (by simp),
        fun h => by rw [hst] at h; exact h⟩
    · have hev := taskEvidenceFound_some fs pp f t fp hfp hne
      have hufp : (adjustStartedAt f t).filePath = some fp := by
        rw [adjustStartedAt_filePath]; exact hfp
      cases hany : (candidatePaths pp f fp).any (fun c => (fs.stat c).isSome) with
      | false =>
        have h0 := firstHit_none_of_any_false fs _ hany
        have hp := probeTask_miss fs pp f (adjustStartedAt f t) fp hufp hne h0
        rw [hone, hp]
        refine ⟨fun h => ?_, fun h => ?_, fun h => ?_⟩
        · dsimp only
          rw [hst, h.1, if_pos rfl]
        · rw [hev, hany] at h
          exact absurd h.2 (by simp)
        · dsimp only at h
          rw [hst] at h
          by_cases hfail : t.status = some TaskStatus.failed
          · exact hfail
          · rw [if_neg hfail] at h
            cases h
      | true =>
        obtain ⟨m, hm⟩ := firstHit_some_of_any_true fs _ hany
        have hp := probeTask_hit fs pp f (adjustStartedAt f t) fp m hufp hne hm
        rw [hone, hp]
        refine ⟨fun h => ?_, fun _ => rfl, fun h => ?_⟩
        · rw [hev, hany] at h
          exact absurd h.2 (by simp)
        · cases h
  
theorem normalizeTaskStatus_failed_iff (t : ParsedTask) :
    (normalizeTaskStatus t).status = some TaskStatus.failed ↔
      t.status = some TaskStatus.failed := by
  rw [normalizeTaskStatus_status]
  constructor
  · intro h
    exact (getD_pending_eq_failed_iff _).mp (Option.some_injective _ h)
  · intro h
    rw [h]
    rfl

/-- C3 (amended): failed is sticky under a miss, not unconditionally. A task
whose input status is failed keeps it when the probe finds no filesystem
evidence, but an existing candidate path overrides even a failed status to
completed; and reconciliation never sets a task's status to failed (a failed
output status can only come from a failed input status). -/
theorem reconcile_failed_sticky_amended
    (fs : FSState) (pp : String) (f : Feature) (r : PlanReconcileResult)
    (hr : (reconcileFeaturePlanSpec fs pp f).2 = some r)
    (i : Nat) (hi : i < (inputTasks fs pp f).length) :
    ∃ hi2 : i < r.tasks.length,
      (((inputTasks fs pp f).get ⟨i, hi⟩).status = some TaskStatus.failed →
        (taskEvidenceFound fs pp f ((inputTasks fs pp f).get ⟨i, hi⟩) = false →
          (r.tasks.get ⟨i, hi2⟩).status = some TaskStatus.failed) ∧
        (taskEvidenceFound fs pp f ((inputTasks fs pp f).get ⟨i, hi⟩) = true →
          (r.tasks.get ⟨i, hi2⟩).status = some TaskStatus.completed)) ∧
      ((r.tasks.get ⟨i, hi2⟩).status = some TaskStatus.failed →
        ((inputTasks fs pp f).get ⟨i, hi⟩).status = some TaskStatus.failed) := by
  have hre := reconcile_result_eq fs pp f r hr
  subst hre
  have hmap : (reconcileTasksPhase fs pp f (inputTasks fs pp f)).tasks =
      (inputTasks fs pp f).map
        (fun t => (reconcileOneTask fs pp f (normalizeTaskStatus t)).1) :=
    reconcileTasksPhase_tasks fs pp f (inputTasks fs pp f)
  have hi2 : i < (reconcileTasksPhase fs pp f (inputTasks fs pp f)).tasks.length := by
    rw [hmap, List.length_map]; exact hi
  have hget : (reconcileTasksPhase fs pp f (inputTasks fs pp f)).tasks.get ⟨i, hi2⟩ =
      (reconcileOneTask fs pp f
        (normalizeTaskStatus ((inputTasks fs pp f).get ⟨i, hi⟩))).1 := by
    have h1 := List.get_of_eq hmap ⟨i, hi2⟩
    rw [List.get_map] at h1
    exact h1
  obtain ⟨hmiss, hhit, hnever⟩ := reconcileOneTask_failed_facts fs pp f
    (normalizeTaskStatus ((inputTasks fs pp f).get ⟨i, hi⟩))
  have hevn : taskEvidenceFound fs pp f
      (normalizeTaskStatus ((inputTasks fs pp f).get ⟨i, hi⟩)) =
      taskEvidenceFound fs pp f ((inputTasks fs pp f).get ⟨i, hi⟩) := rfl
  refine ⟨hi2, fun hfail => ⟨fun hev => ?_, fun hev => ?_⟩, fun hout => ?_⟩
  · rw [hget]
    exact hmiss ⟨(normalizeTaskStatus_failed_iff _).mpr hfail, hevn.trans hev⟩
  · rw [hget]
    exact hhit ⟨(normalizeTaskStatus_failed_iff _).mpr hfail, hevn.trans hev⟩
  · rw [hget] at hout
    exact (normalizeTaskStatus_failed_iff _).mp (hnever hout)

/-- Fixture for the C3 counterexample and C1/C3 witnesses: a project at `/p`
where `a.txt` and `c.txt` exist and `b.txt` does not. -/
def exampleFs : FSState :=
  { stat := fun p =>
      if p = "/p/a.txt" then some "2024-05-01T10:00:00.000Z"
      else if p = "/p/c.txt" then some "2024-06-01T00:00:00.000Z"
      else none
    read := fun _ => none }

def exampleTasksC1 : List ParsedTask :=
  [{ id := "T001", description := "one", filePath := some "a.txt",
     status := some TaskStatus.pending },
   { id := "T002", description := "two", filePath := some "b.txt",
     status := some TaskStatus.completed }]

def exampleFeatureC1 : Feature :=
  { id := "f1", planSpec := some { tasks := some exampleTasksC1 } }

def exampleResultC1 : PlanReconcileResult :=
  reconcileTasksPhase exampleFs "/p" exampleFeatureC1 exampleTasksC1

theorem reconcile_task_evidence_override_witness :
    (exampleResultC1.tasks.get ⟨0, by decide⟩).status = some TaskStatus.completed ∧
    (exampleResultC1.tasks.get ⟨0, by decide⟩).completedAt = some "2024-05-01T10:00:00.000Z" ∧
    "b.txt" ∈ exampleResultC1.missingFiles ∧
    (exampleResultC1.tasks.get ⟨1, by decide⟩).status = some TaskStatus.pending := by
  obtain ⟨h0, ha, _⟩ := reconcile_task_evidence_override exampleFs "/p" exampleFeatureC1
    exampleResultC1 rfl 0 (by decide) "a.txt" rfl (by decide)
  obtain ⟨h1, _, hb⟩ := reconcile_task_evidence_override exampleFs "/p" exampleFeatureC1
    exampleResultC1 rfl 1 (by decide) "b.txt" rfl (by decide)
  have hA := ha (by decide)
  have hB := hb (by decide)
  refine ⟨hA.1, ?_, hB.1, hB.2 (by decide)⟩
  have hback := hA.2.2 (by decide)
  rw [hback]
  rfl

def exampleTasksC3 : List ParsedTask :=
  [{ id := "T001", description := "found", filePath := some "c.txt",
     status := some TaskStatus.failed },
   { id := "T002", description := "lost", filePath := some "b.txt",
     status := some TaskStatus.failed }]

def exampleFeatureC3 : Feature :=
  { id := "f3", planSpec := some { tasks := some exampleTasksC3 } }

def exampleResultC3 : PlanReconcileResult :=
  reconcileTasksPhase exampleFs "/p" exampleFeatureC3 exampleTasksC3

/-- C3 counterexample: a task in status failed whose target file exists is
returned in status completed, not failed — reconciliation overrides a failed
status when filesystem evidence says the file is there. -/
theorem reconcile_failed_overridden_cex :
    (exampleTasksC3.map ParsedTask.status).take 1 = [some TaskStatus.failed] ∧
    ((reconcileFeaturePlanSpec exampleFs "/p" exampleFeatureC3).2.map
        (fun r => (r.tasks.map ParsedTask.status).take 1)) =
      some [some TaskStatus.completed] := by
  constructor
  · rfl
  · rfl

theorem reconcile_failed_sticky_amended_witness :
    (exampleResultC3.tasks.get ⟨0, by decide⟩).status = some TaskStatus.completed ∧
    (exampleResultC3.tasks.get ⟨1, by decide⟩).status = some TaskStatus.failed := by
  obtain ⟨h0, hfacts0, _⟩ := reconcile_failed_sticky_amended exampleFs "/p" exampleFeatureC3
    exampleResultC3 rfl 0 (by decide)
  obtain ⟨h1, hfacts1, _⟩ := reconcile_failed_sticky_amended exampleFs "/p" exampleFeatureC3
    exampleResultC3 rfl 1 (by decide)
  exact ⟨(hfacts0 (by decide)).2 (by decide), (hfacts1 (by decide)).1 (by decide)⟩

/-- Whether the record's resolved plan spec lacked a task list before the call. -/
def planSpecTasksEmpty (f : Feature) : Bool := tasksEmpty (f.planSpec.getD {})

/-- C10: `reconcileFeaturePlanSpec` mutates its input record in place — the
returned record always carries the resolved plan spec (an absent `planSpec`
becomes an empty object, and extracted tasks are written into it), so a record
whose plan spec lacked tasks but yielded extracted tasks differs from the
input record after the call even though nothing was persisted. -/
theorem reconcile_mutates_record_in_place (fs : FSState) (pp : String) (f : Feature) :
    ((reconcileFeaturePlanSpec fs pp f).1.planSpec = some (resolvePlanSpec fs pp f)) ∧
    (planSpecTasksEmpty f = true → inputTasks fs pp f ≠ [] →
      (reconcileFeaturePlanSpec fs pp f).1 ≠ f) := by
  refine ⟨rfl, ?_⟩
  intro hempty hne heq
  have hps : f.planSpec = some (resolvePlanSpec fs pp f) := by
    conv_lhs => rw [← heq]
    rfl
  have hempty2 : tasksEmpty (resolvePlanSpec fs pp f) = true := by
    have h2 : planSpecTasksEmpty f = tasksEmpty (resolvePlanSpec fs pp f) := by
      rw [planSpecTasksEmpty, hps]
      rfl
    rw [← h2]
    exact hempty
  have hf : tasksEmpty (resolvePlanSpec fs pp f) = false :=
    (tasksEmpty_false_iff _).mpr hne
  rw [hempty2] at hf
  cases hf

theorem string_ext (a b : String) (h : a.data = b.data) : a = b := by
  cases a
  cases b
  exact congrArg String.mk h

theorem string_append_cancel_left (a b c : String) (h : a ++ b = a ++ c) : b = c := by
  have hd : a.data ++ b.data = a.data ++ c.data := congrArg String.data h
  exact string_ext _ _ (List.append_cancel_left hd)

theorem string_append_cancel_right (a b c : String) (h : a ++ c = b ++ c) : a = b := by
  have hd : a.data ++ c.data = b.data ++ c.data := congrArg String.data h
  exact string_ext _ _ (List.append_cancel_right hd)

theorem getEventPath_inj (pp a b : String) (h : getEventPath pp a = getEventPath pp b) :
    a = b := by
  rw [getEventPath, getEventPath] at h
  exact string_append_cancel_left _ _ _ (string_append_cancel_right _ _ _ h)

/-- The summaries generated by a sequence of `storeEvent` calls, oldest
first. -/
def summariesOf (calls : List (StoreEventInput × String × String)) : List StoredEventSummary :=
  calls.map (fun c => summaryOfEvent (mkStoredEvent c.1 c.2.1 c.2.2))

theorem take_append_take {α : Type} (L M : List α) (n : Nat) :
    (L ++ M.take n).take n = (L ++ M).take n := by
  rw [List.take_append_eq_append_take, List.take_append_eq_append_take, List.take_take]
  congr 2
  exact Nat.min_eq_left (Nat.sub_le n L.length)

theorem addToIndex_index (maxE : Nat) (u : String → Bool) (pp : String)
    (st : EventStoreState) (e : StoredEvent) :
    (addToIndex maxE u pp st e).index = (summaryOfEvent e :: st.index).take maxE := by
  rw [addToIndex]
  split
  · rfl
  · rename_i hlen
    dsimp only
    rw [List.take_of_length_le (Nat.le_of_not_lt hlen)]

theorem storeEvents_index (maxE : Nat) (u : String → Bool)
    (calls : List (StoreEventInput × String × String)) :
    ∀ st : EventStoreState, st.index.length ≤ maxE →
      (storeEvents maxE u st calls).index =
        ((summariesOf calls).reverse ++ st.index).take maxE := by
  induction calls with
  | nil =>
    intro st hst
    simp only [storeEvents, summariesOf, List.map_nil, List.reverse_nil, List.nil_append]
    exact (List.take_of_length_le hst).symm
  | cons c rest ih =>
    intro st hst
    obtain ⟨input, eventId, timestamp⟩ := c
    show (storeEvents maxE u (storeEvent maxE u st input eventId timestamp).1 rest).index = _
    have hstep : (storeEvent maxE u st input eventId timestamp).1.index =
        (summaryOfEvent (mkStoredEvent input eventId timestamp) :: st.index).take maxE := by
      show (addToIndex maxE u input.projectPath _ _).index = _
      rw [addToIndex_index]
    have hlen1 : (storeEvent maxE u st input eventId timestamp).1.index.length ≤ maxE := by
      rw [hstep, List.length_take]
      exact Nat.min_le_left _ _
    rw [ih _ hlen1, hstep, take_append_take]
    congr 1
    show (summariesOf rest).reverse ++
        (summaryOfEvent (mkStoredEvent input eventId timestamp) :: st.index) =
      (summariesOf ((input, eventId, timestamp) :: rest)).reverse ++ st.index
    rw [summariesOf, summariesOf, List.map_cons, List.reverse_cons, List.append_assoc]
    rfl

theorem addToIndex_files_inv (maxE : Nat) (pp : String) (index : List StoredEventSummary)
    (files : List String) (e : StoredEvent)
    (hfiles : files = index.reverse.map (fun s => getEventPath pp s.id))
    (hnodup : (index.map StoredEventSummary.id).Nodup)
    (hfresh : ∀ s ∈ index, s.id ≠ e.id) :
    (addToIndex maxE (fun _ => true) pp ⟨index, files ++ [getEventPath pp e.id]⟩ e).files =
      (addToIndex maxE (fun _ => true) pp
        ⟨index, files ++ [getEventPath pp e.id]⟩ e).index.reverse.map
        (fun s => getEventPath pp s.id) := by
  have hidnodup : ((summaryOfEvent e :: index).map StoredEventSummary.id).Nodup := by
    rw [List.map_cons, List.nodup_cons]
    refine ⟨fun hm => ?_, hnodup⟩
    obtain ⟨s, hs, hside⟩ := List.mem_map.mp hm
    exact hfresh s hs hside
  have hidxfiles : files ++ [getEventPath pp e.id] =
      (summaryOfEvent e :: index).reverse.map (fun s => getEventPath pp s.id) := by
    rw [List.reverse_cons, List.map_append, hfiles]
    rfl
  rw [addToIndex]
  split
  · rename_i hlen
    dsimp only
    rw [hidxfiles]
    conv_lhs => rw [← List.take_append_drop maxE (summaryOfEvent e :: index)]
    rw [List.reverse_append, List.map_append, List.filter_append, List.take_append_drop]
    have hsplit : (summaryOfEvent e :: index).map StoredEventSummary.id =
        ((summaryOfEvent e :: index).take maxE).map StoredEventSummary.id ++
          ((summaryOfEvent e :: index).drop maxE).map StoredEventSummary.id := by
      rw [← List.map_append, List.take_append_drop]
    rw [hsplit, List.nodup_append] at hidnodup
    have hA : (((summaryOfEvent e :: index).drop maxE).reverse.map
        (fun s => getEventPath pp s.id)).filter
        (fun p => !(((summaryOfEvent e :: index).drop maxE).any
          (fun s => decide (getEventPath pp s.id = p)) && true)) = [] := by
      apply List.filter_eq_nil_iff.mpr
      intro p hp
      obtain ⟨s, hs, hps⟩ := List.mem_map.mp hp
      intro hpred
      have hany : ((summaryOfEvent e :: index).drop maxE).any
          (fun s2 => decide (getEventPath pp s2.id = p)) = true :=
        List.any_eq_true.mpr ⟨s, List.mem_reverse.mp hs, by rw [hps]; simp⟩
      rw [hany] at hpred
      simp at hpred
    have hB : (((summaryOfEvent e :: index).take maxE).reverse.map
        (fun s => getEventPath pp s.id)).filter
        (fun p => !(((summaryOfEvent e :: index).drop maxE).any
          (fun s => decide (getEventPath pp s.id = p)) && true)) =
        ((summaryOfEvent e :: index).take maxE).reverse.map
          (fun s => getEventPath pp s.id) := by
      apply List.filter_eq_self.mpr
      intro p hp
      obtain ⟨k, hk, hpk⟩ := List.mem_map.mp hp
      have hanyf : ((summaryOfEvent e :: index).drop maxE).any
          (fun s2 => decide (getEventPath pp s2.id = p)) = false := by
        apply List.any_eq_false.mpr
        intro s hs hdec
        rw [← hpk] at hdec
        have hid : s.id = k.id := getEventPath_inj pp _ _ (of_decide_eq_true hdec)
        exact hidnodup.2.2 (List.mem_map.mpr ⟨k, List.mem_reverse.mp hk, rfl⟩)
          (List.mem_map.mpr ⟨s, hs, hid⟩)
      rw [hanyf]
      simp
    rw [hA, hB, List.nil_append]
  · rename_i hlen
    dsimp only
    rw [hidxfiles]

theorem storeEvents_files (maxE : Nat) (pp : String)
    (calls : List (StoreEventInput × String × String)) :
    ∀ st : EventStoreState,
      (∀ c ∈ calls, c.1.projectPath = pp) →
      (calls.map (fun c => c.2.1)).Nodup →
      (∀ c ∈ calls, ∀ s ∈ st.index, s.id ≠ c.2.1) →
      st.files = st.index.reverse.map (fun s => getEventPath pp s.id) →
      (st.index.map StoredEventSummary.id).Nodup →
      (storeEvents maxE (fun _ => true) st calls).files =
        (storeEvents maxE (fun _ => true) st calls).index.reverse.map
          (fun s => getEventPath pp s.id) ∧
      ((storeEvents maxE (fun _ => true) st calls).index.map StoredEventSummary.id).Nodup := by
  induction calls with
  | nil =>
    intro st _ _ _ hfiles hnodup
    exact ⟨hfiles, hnodup⟩
  | cons c rest ih =>
    obtain ⟨input, eid, ts⟩ := c
    intro st hpp hids hfresh hfiles hnodup
    have hpp0 : input.projectPath = pp := hpp _ (List.mem_cons_self _ _)
    have hfresh0 : ∀ s ∈ st.index, s.id ≠ eid := fun s hs =>
      hfresh _ (List.mem_cons_self _ _) s hs
    rw [List.map_cons, List.nodup_cons] at hids
    have hnotin : getEventPath pp eid ∉ st.files := by
      rw [hfiles]
      intro hmem
      obtain ⟨s, hs, hpath⟩ := List.mem_map.mp hmem
      exact hfresh0 s (List.mem_reverse.mp hs) (getEventPath_inj pp s.id eid hpath)
    have hnotin2 : getEventPath input.projectPath eid ∉ st.files := by
      rw [hpp0]; exact hnotin
    have hstep : (storeEvent maxE (fun _ => true) st input eid ts).1 =
        addToIndex maxE (fun _ => true) input.projectPath
          ⟨st.index, st.files ++ [getEventPath input.projectPath eid]⟩
          (mkStoredEvent input eid ts) := by
      show addToIndex maxE (fun _ => true) input.projectPath
          { st with files := writeFileEntry st.files (getEventPath input.projectPath eid) } _ = _
      rw [writeFileEntry, if_neg hnotin2]
    have hidx1 : (storeEvent maxE (fun _ => true) st input eid ts).1.index =
        (summaryOfEvent (mkStoredEvent input eid ts) :: st.index).take maxE := by
      rw [hstep, addToIndex_index]
    have hfiles1 : (storeEvent maxE (fun _ => true) st input eid ts).1.files =
        (storeEvent maxE (fun _ => true) st input eid ts).1.index.reverse.map
          (fun s => getEventPath pp s.id) := by
      rw [hstep, hpp0]
      exact addToIndex_files_inv maxE pp st.index st.files (mkStoredEvent input eid ts)
        hfiles hnodup hfresh0
    have hnodup1 : ((storeEvent maxE (fun _ => true) st input eid ts).1.index.map
        StoredEventSummary.id).Nodup := by
      rw [hidx1, List.map_take]
      have hco : ((summaryOfEvent (mkStoredEvent input eid ts) :: st.index).map
          StoredEventSummary.id).Nodup := by
        rw [List.map_cons, List.nodup_cons]
        refine ⟨fun hm => ?_, hnodup⟩
        obtain ⟨s, hs, hsid⟩ := List.mem_map.mp hm
        exact hfresh0 s hs hsid
      exact List.Nodup.sublist (List.take_sublist _ _) hco
    have hfresh1 : ∀ c' ∈ rest, ∀ s ∈ (storeEvent maxE (fun _ => true) st input eid ts).1.index,
        s.id ≠ c'.2.1 := by
      intro c' hc' s hsmem
      rw [hidx1] at hsmem
      have hs2 : s ∈ summaryOfEvent (mkStoredEvent input eid ts) :: st.index :=
        List.mem_of_mem_take hsmem
      rcases List.mem_cons.mp hs2 with he | hm
      · rw [he]
        intro hcon
        exact hids.1 (List.mem_map.mpr ⟨c', hc', hcon.symm⟩)
      · exact hfresh c' (List.mem_cons_of_mem _ hc') s hm
    exact ih _ (fun c' hc' => hpp c' (List.mem_cons_of_mem _ hc')) hids.2 hfresh1 hfiles1 hnodup1

/-- C7: the event index is bounded. With a cap of `maxE`: the index length
stays at most `maxE` from any bounded starting state (hence after every call
of a sequence), the index after any call sequence from the empty store holds
the most recent summaries newest-first (truncated at `maxE`), inserting
`maxE + 50` events leaves exactly `maxE` summaries, and — independently of
which unlink calls succeed for the index itself — when unlinks succeed the
files on disk are exactly the backing files of the kept summaries, the pruned
ones having been deleted. -/
theorem event_history_index_bounded
    (maxE : Nat) (u : String → Bool) (st : EventStoreState)
    (calls : List (StoreEventInput × String × String)) (pp : String)
    (hst : st.index.length ≤ maxE)
    (hpp : ∀ c ∈ calls, c.1.projectPath = pp)
    (hids : (calls.map (fun c => c.2.1)).Nodup) :
    (storeEvents maxE u st calls).index.length ≤ maxE ∧
    (storeEvents maxE u ⟨[], []⟩ calls).index = (summariesOf calls).reverse.take maxE ∧
    (calls.length = maxE + 50 → (storeEvents maxE u ⟨[], []⟩ calls).index.length = maxE) ∧
    (storeEvents maxE (fun _ => true) ⟨[], []⟩ calls).files =
      (storeEvents maxE (fun _ => true) ⟨[], []⟩ calls).index.reverse.map
        (fun s => getEventPath pp s.id) := by
  have hempty : (⟨[], []⟩ : EventStoreState).index.length ≤ maxE := Nat.zero_le maxE
  have h2 : (storeEvents maxE u ⟨[], []⟩ calls).index =
      (summariesOf calls).reverse.take maxE := by
    rw [storeEvents_index maxE u calls _ hempty]
    simp
  refine ⟨?_, h2, fun hlen => ?_, ?_⟩
  · rw [storeEvents_index maxE u calls st hst, List.length_take]
    exact Nat.min_le_left _ _
  · rw [h2, List.length_take, List.length_reverse]
    have hsl : (summariesOf calls).length = calls.length := by
      rw [summariesOf, List.length_map]
    rw [hsl, hlen]
    exact Nat.min_eq_left (Nat.le_add_right _ _)
  · exact (storeEvents_files maxE pp calls ⟨[], []⟩ hpp hids
      (fun c _ s hs => absurd hs (List.not_mem_nil s)) rfl List.nodup_nil).1

def exampleCallsC7 : List (StoreEventInput × String × String) :=
  (List.range 51).map (fun n =>
    ({ trigger := "t", projectPath := "/p" }, String.mk (List.replicate n (Char.ofNat 97)), "ts"))

theorem event_history_index_bounded_witness :
    (storeEvents 1 (fun _ => true) ⟨[], []⟩ exampleCallsC7).index =
      (summariesOf exampleCallsC7).reverse.take 1 ∧
    (storeEvents 1 (fun _ => true) ⟨[], []⟩ exampleCallsC7).index.length = 1 ∧
    (storeEvents 1 (fun _ => true) ⟨[], []⟩ exampleCallsC7).files =
      (storeEvents 1 (fun _ => true) ⟨[], []⟩ exampleCallsC7).index.reverse.map
        (fun s => getEventPath "/p" s.id) := by
  obtain ⟨h1, h2, h3, h4⟩ := event_history_index_bounded 1 (fun _ => true) ⟨[], []⟩
    exampleCallsC7 "/p" (by decide) (by decide) (by decide)
  exact ⟨h2, h3 (by decide), h4⟩

theorem filter_issue_or_false (l : List RecoveryItem) :
    l.filter (fun item => !item.issues.isEmpty || false) =
      l.filter (fun item => !item.issues.isEmpty) :=
  List.filter_congr (fun a _ => Bool.or_false _)

theorem filter_issue_or_true (l : List RecoveryItem) :
    l.filter (fun item => !item.issues.isEmpty || true) = l := by
  apply List.filter_eq_self.mpr
  intro a _
  exact Bool.or_true _

/-- C4 (amended): in the recovery aggregator's output, a record with zero
issues is absent from `items` when `includeAll` is not set, `summary.total`
is the number of records with at least one issue, but `summary.totalItems`
equals the number of emitted items (all records when `includeAll` is set,
otherwise only the records with at least one issue) — records skipped for
having zero issues are not counted in `summary.totalItems`. -/
theorem recovery_center_summary_amended
    (fs : FSState) (rff : String → Option Feature) (now pp : String)
    (includeAll : Bool) (features : List Feature) :
    (recoveryCenter fs rff now pp includeAll features).1.totalItems =
      (recoveryCenter fs rff now pp includeAll features).2.length ∧
    (recoveryCenter fs rff now pp includeAll features).1.total =
      features.countP (fun f =>
        !(processRecoveryFeature fs rff now pp (features.map Feature.id) f).issues.isEmpty) ∧
    (includeAll = false →
      (recoveryCenter fs rff now pp includeAll features).2 =
        (features.filter (fun f =>
          !(processRecoveryFeature fs rff now pp (features.map Feature.id) f).issues.isEmpty)).map
          (processRecoveryFeature fs rff now pp (features.map Feature.id))) ∧
    (includeAll = true →
      (recoveryCenter fs rff now pp includeAll features).2 =
        features.map (processRecoveryFeature fs rff now pp (features.map Feature.id))) := by
  cases includeAll with
  | false =>
    have hitems : (recoveryCenter fs rff now pp false features).2 =
        (features.filter (fun f =>
          !(processRecoveryFeature fs rff now pp (features.map Feature.id) f).issues.isEmpty)).map
          (processRecoveryFeature fs rff now pp (features.map Feature.id)) := by
      show ((features.map (processRecoveryFeature fs rff now pp (features.map Feature.id))).filter
          (fun item => !item.issues.isEmpty || false)) = _
      rw [filter_issue_or_false, List.filter_map]
      rfl
    refine ⟨rfl, ?_, fun _ => hitems, fun h => absurd h (by decide)⟩
    show ((features.map (processRecoveryFeature fs rff now pp (features.map Feature.id))).filter
        (fun item => !item.issues.isEmpty || false)).countP
        (fun item => !item.issues.isEmpty) = _
    rw [filter_issue_or_false, List.countP_filter, List.countP_map]
    apply List.countP_congr
    intro a _
    simp only [Function.comp, Bool.and_self]
  | true =>
    have hitems : (recoveryCenter fs rff now pp true features).2 =
        features.map (processRecoveryFeature fs rff now pp (features.map Feature.id)) := by
      show ((features.map (processRecoveryFeature fs rff now pp (features.map Feature.id))).filter
          (fun item => !item.issues.isEmpty || true)) = _
      rw [filter_issue_or_true]
    refine ⟨rfl, ?_, fun h => absurd h (by decide), fun _ => hitems⟩
    show ((features.map (processRecoveryFeature fs rff now pp (features.map Feature.id))).filter
        (fun item => !item.issues.isEmpty || true)).countP
        (fun item => !item.issues.isEmpty) = _
    rw [filter_issue_or_true, List.countP_map]
    rfl

/-- Fixture for the C4 counterexample: one record with zero issues (completed,
no error, no plan, its execution artifact present, no dependency evidence). -/
def exampleFsC4 : FSState :=
  { stat := fun p => if p = "/p/.automaker/features/f1/agent-output.md" then some "m" else none
    read := fun _ => none }

def exampleFeatureC4 : Feature := { id := "f1", status := some "completed" }

/-- C4 counterexample: the project has one record and it has zero issues, yet
with `includeAll` unset `summary.totalItems` is 0, not 1 — zero-issue records
are not counted toward `summary.totalItems`. -/
theorem recovery_center_totalItems_cex :
    (processRecoveryFeature exampleFsC4 (fun _ => none) "now" "/p" ["f1"]
      exampleFeatureC4).issues = [] ∧
    [exampleFeatureC4].length = 1 ∧
    (recoveryCenter exampleFsC4 (fun _ => none) "now" "/p" false [exampleFeatureC4]).2 = [] ∧
    (recoveryCenter exampleFsC4 (fun _ => none) "now" "/p" false
      [exampleFeatureC4]).1.totalItems = 0 ∧
    (recoveryCenter exampleFsC4 (fun _ => none) "now" "/p" false [exampleFeatureC4]).1.total = 0 := by
  refine ⟨?_, rfl, ?_, ?_, ?_⟩ <;> rfl
